import Mathlib

/-!
Verification of the ay11sutra audit-pipeline backend.

The Python sources are shallowly embedded as executable Lean functions over
the relevant data: strings become lists of characters, dictionaries become
structures with Option-valued fields where the absence of a key matters,
re.sub passes become deterministic left-to-right scanners (the concrete
patterns used by the code contain no genuinely nondeterministic
backtracking, so each pass is a total function), and every external oracle
(the reasoning LLM, the browser scanner) becomes an explicit function or
Except-valued parameter of the stage that calls it.  Character classes are
modelled over ASCII, which covers every literal the code matches on.
-/

set_option maxRecDepth 10000

namespace Ay11

/-- Lower-case a character, as Python re.IGNORECASE does for ASCII. -/
def lcChar (c : Char) : Char := c.toLower

/-- Python regex whitespace class for ASCII strings. -/
def isPySpace (c : Char) : Bool :=
  c = ' ' || c = '\t' || c = '\n' || c = '\r' || c = Char.ofNat 11 || c = Char.ofNat 12

/-- Python regex word class for ASCII strings. -/
def isWordChar (c : Char) : Bool := c.isAlphanum || c = '_'

/-- Match a literal pattern case-insensitively (pattern given in lower case);
return the rest of the string after the pattern. -/
def matchCI : List Char → List Char → Option (List Char)
  | [], s => some s
  | _ :: _, [] => none
  | p :: ps, c :: cs => if lcChar c = p then matchCI ps cs else none

/-- Match a literal pattern case-sensitively. -/
def matchCS : List Char → List Char → Option (List Char)
  | [], s => some s
  | _ :: _, [] => none
  | p :: ps, c :: cs => if c = p then matchCS ps cs else none

/-- Consume the regex piece that matches zero or more non-gt characters
followed by a closing gt character; return the rest after the gt. -/
def gtClose : List Char → Option (List Char)
  | [] => none
  | c :: cs => if c = '>' then some cs else gtClose cs

/-- The non-greedy search of a dotall regex for a literal closing pattern:
drop characters until the first case-insensitive occurrence of the pattern
and return the rest after it. -/
def dropToClose (p : Char) (ps : List Char) : List Char → Option (List Char)
  | [] => none
  | c :: cs =>
    match matchCI (p :: ps) (c :: cs) with
    | some r => some r
    | none => dropToClose p ps cs

/-- Drop characters until the first occurrence of a given character and
return the rest after it (the regex piece matching non-quote characters
followed by the closing quote). -/
def dropToChar (q : Char) : List Char → Option (List Char)
  | [] => none
  | c :: cs => if c = q then some cs else dropToChar q cs

/-- One left-to-right pass of Python re.sub: at each position try the step
function; on a match emit its replacement and continue after the match
(matched text is never rescanned), otherwise emit the head character and
advance by one.  Fuel-indexed to stay structurally recursive; every step
used in this file consumes at least one character, so fuel equal to the
length of the string is always sufficient. -/
def scanSub (step : List Char → Option (List Char × List Char)) :
    Nat → List Char → List Char
  | 0, s => s
  | _ + 1, [] => []
  | f + 1, c :: cs =>
    match step (c :: cs) with
    | some (rep, rest) => rep ++ scanSub step f rest
    | none => c :: scanSub step f cs

/-- Run one re.sub pass over a whole string. -/
def runSub (step : List Char → Option (List Char × List Char))
    (s : List Char) : List Char :=
  scanSub step s.length s

/-- Word-boundary test after the literal "script" in the output-guard
pattern: the next character must not be a word character. -/
def bdryOk : List Char → Bool
  | [] => true
  | c :: _ => !isWordChar c

/-- Step of the output-guard pass removing script elements: the pattern
script-open with word boundary, any attribute characters up to the gt,
non-greedy anything, script-close, case-insensitive and dotall. -/
def stepScriptGuard (s : List Char) : Option (List Char × List Char) :=
  match matchCI ('<' :: "script".data) s with
  | none => none
  | some r1 =>
    if bdryOk r1 then
      match gtClose r1 with
      | none => none
      | some r2 =>
        match dropToClose '<' ('/' :: "script".data ++ ['>']) r2 with
        | none => none
        | some rest => some ([], rest)
    else none

/-- Step of the fingerprint passes removing a whole tag block (script,
iframe, noscript, style): tag-open, attribute characters up to the gt,
non-greedy anything, tag-close; case-insensitive, dotall, no boundary. -/
def stepTagRemove (tag : List Char) (s : List Char) : Option (List Char × List Char) :=
  match matchCI ('<' :: tag) s with
  | none => none
  | some r1 =>
    match gtClose r1 with
    | none => none
    | some r2 =>
      match dropToClose '<' ('/' :: tag ++ ['>']) r2 with
      | none => none
      | some rest => some ([], rest)

/-- Step removing an HTML comment: literal open, non-greedy anything,
literal close. -/
def stepComment (s : List Char) : Option (List Char × List Char) :=
  match matchCI "<!--".data s with
  | none => none
  | some r1 =>
    match dropToClose '-' ("->".data) r1 with
    | none => none
    | some rest => some ([], rest)

/-- Step removing one case-insensitive occurrence of the javascript scheme. -/
def stepJs (s : List Char) : Option (List Char × List Char) :=
  match matchCI "javascript:".data s with
  | none => none
  | some rest => some ([], rest)

/-- Step removing one inline event-handler attribute: a single whitespace,
the letters o n, one or more word characters, an equals sign, the quote
character q, any non-q characters and the closing q; case-insensitive. -/
def stepHandler (q : Char) (s : List Char) : Option (List Char × List Char) :=
  match s with
  | [] => none
  | c :: cs =>
    if isPySpace c then
      match matchCI "on".data cs with
      | none => none
      | some r1 =>
        if r1.takeWhile isWordChar = [] then none
        else
          match r1.dropWhile isWordChar with
          | '=' :: q0 :: r3 =>
            if q0 = q then
              match dropToChar q r3 with
              | none => none
              | some rest => some ([], rest)
            else none
          | _ => none
    else none

/-- src/guardrails/output_guard.py validate_fix: sanitize an AI fix by the
four re.sub passes (script blocks, javascript scheme, double-quoted and
single-quoted inline handlers) and append the guard marker when anything
changed. -/
def validate_fix (fix_code : String) : String :=
  if fix_code = "" then ""
  else
    let l := fix_code.data
    let f1 := runSub stepScriptGuard l
    let f2 := runSub stepJs f1
    let f3 := runSub (stepHandler '"') f2
    let f4 := runSub (stepHandler (Char.ofNat 39)) f3
    if f4 = l then String.mk f4
    else String.mk (f4 ++ "\n<!-- EmpathAI Guard: Unsafe content removed -->".data)

/-! ### SHA-256 over natural numbers

A concrete SHA-256, with 32-bit words represented as natural numbers below
two to the thirty-two, so that the fingerprint function can be evaluated by
the kernel on concrete markup. -/

/-- Two to the thirty-two. -/
def m32 : Nat := 4294967296

/-- 32-bit modular addition. -/
def add32 (a b : Nat) : Nat := (a + b) % m32

/-- 32-bit right rotation. -/
def rotr32 (x n : Nat) : Nat := ((x >>> n) ||| (x <<< (32 - n))) % m32

/-- 32-bit complement. -/
def not32 (x : Nat) : Nat := x ^^^ 4294967295

/-- SHA-256 choice function. -/
def shaCh (x y z : Nat) : Nat := (x &&& y) ^^^ (not32 x &&& z)

/-- SHA-256 majority function. -/
def shaMaj (x y z : Nat) : Nat := (x &&& y) ^^^ (x &&& z) ^^^ (y &&& z)

/-- SHA-256 big sigma 0. -/
def bSig0 (x : Nat) : Nat := rotr32 x 2 ^^^ rotr32 x 13 ^^^ rotr32 x 22

/-- SHA-256 big sigma 1. -/
def bSig1 (x : Nat) : Nat := rotr32 x 6 ^^^ rotr32 x 11 ^^^ rotr32 x 25

/-- SHA-256 small sigma 0. -/
def sSig0 (x : Nat) : Nat := rotr32 x 7 ^^^ rotr32 x 18 ^^^ (x >>> 3)

/-- SHA-256 small sigma 1. -/
def sSig1 (x : Nat) : Nat := rotr32 x 17 ^^^ rotr32 x 19 ^^^ (x >>> 10)

/-- The SHA-256 round constants, in decimal. -/
def shaK : List Nat :=
  [1116352408, 1899447441, 3049323471, 3921009573, 961987163,
   1508970993, 2453635748, 2870763221, 3624381080, 310598401,
   607225278, 1426881987, 1925078388, 2162078206, 2614888103,
   3248222580, 3835390401, 4022224774, 264347078, 604807628,
   770255983, 1249150122, 1555081692, 1996064986, 2554220882,
   2821834349, 2952996808, 3210313671, 3336571891, 3584528711,
   113926993, 338241895, 666307205, 773529912, 1294757372,
   1396182291, 1695183700, 1986661051, 2177026350, 2456956037,
   2730485921, 2820302411, 3259730800, 3345764771, 3516065817,
   3600352804, 4094571909, 275423344, 430227734, 506948616,
   659060556, 883997877, 958139571, 1322822218, 1537002063,
   1747873779, 1955562222, 2024104815, 2227730452, 2361852424,
   2428436474, 2756734187, 3204031479, 3329325298]

/-- The eight working variables of the compression function. -/
structure Sha8 where
  a : Nat
  b : Nat
  c : Nat
  d : Nat
  e : Nat
  f : Nat
  g : Nat
  h : Nat

/-- The SHA-256 initial hash value, in decimal. -/
def shaH0 : Sha8 :=
  ⟨1779033703, 3144134277, 1013904242, 2773480762,
   1359893119, 2600822924, 528734635, 1541459225⟩

/-- One SHA-256 compression round; kw is the round constant plus the
schedule word, already combined. -/
def shaRound (st : Sha8) (kw : Nat) : Sha8 :=
  let t1 := add32 (add32 (add32 st.h (bSig1 st.e)) (shaCh st.e st.f st.g)) kw
  let t2 := add32 (bSig0 st.a) (shaMaj st.a st.b st.c)
  ⟨add32 t1 t2, st.a, st.b, st.c, add32 st.d t1, st.e, st.f, st.g⟩

/-- Extend the message schedule, keeping the words in reverse order: each
step prepends the next scheduled word computed from the second, seventh,
fifteenth and sixteenth most recent words. -/
def shaSchedule (acc : List Nat) : Nat → List Nat
  | 0 => acc
  | n + 1 =>
    shaSchedule
      (add32 (add32 (sSig1 (acc.getD 1 0)) (acc.getD 6 0))
        (add32 (sSig0 (acc.getD 14 0)) (acc.getD 15 0)) :: acc) n

/-- Fieldwise 32-bit addition of compression states. -/
def shaAdd8 (x y : Sha8) : Sha8 :=
  ⟨add32 x.a y.a, add32 x.b y.b, add32 x.c y.c, add32 x.d y.d,
   add32 x.e y.e, add32 x.f y.f, add32 x.g y.g, add32 x.h y.h⟩

/-- Compress one 16-word block into the running hash state. -/
def shaCompress (st : Sha8) (block : List Nat) : Sha8 :=
  let ws := (shaSchedule block.reverse 48).reverse
  shaAdd8 st ((shaK.zip ws).foldl (fun s p => shaRound s (add32 p.1 p.2)) st)

/-- Big-endian packing of bytes into 32-bit words. -/
def bytesToWords : List Nat → List Nat
  | a :: b :: c :: d :: rest =>
    (a * 16777216 + b * 65536 + c * 256 + d) :: bytesToWords rest
  | _ => []

/-- Split a word list into 16-word blocks (the padded message always has a
multiple of sixteen words). -/
def wordsToBlocks : List Nat → List (List Nat)
  | w0 :: w1 :: w2 :: w3 :: w4 :: w5 :: w6 :: w7 ::
    w8 :: w9 :: w10 :: w11 :: w12 :: w13 :: w14 :: w15 :: rest =>
    [w0, w1, w2, w3, w4, w5, w6, w7, w8, w9, w10, w11, w12, w13, w14, w15] ::
      wordsToBlocks rest
  | _ => []

/-- SHA-256 padding: the 0x80 byte, zeros to 56 mod 64, and the bit length
as eight big-endian bytes. -/
def shaPad (msg : List Nat) : List Nat :=
  let len := msg.length
  let zeros := (119 - len % 64) % 64
  let bits := 8 * len
  msg ++ 0x80 :: List.replicate zeros 0 ++
    [bits >>> 56 % 256, bits >>> 48 % 256, bits >>> 40 % 256, bits >>> 32 % 256,
     bits >>> 24 % 256, bits >>> 16 % 256, bits >>> 8 % 256, bits % 256]

/-- The SHA-256 digest of a byte sequence, as eight 32-bit words. -/
def sha256 (msg : List Nat) : Sha8 :=
  (wordsToBlocks (bytesToWords (shaPad msg))).foldl shaCompress shaH0

/-- A hex digit as a lower-case character, as Python hexdigest prints it. -/
def hexDigit (n : Nat) : Char :=
  if n < 10 then Char.ofNat (48 + n) else Char.ofNat (87 + n)

/-- A 32-bit word as eight lower-case hex characters. -/
def wordHex (w : Nat) : List Char :=
  [hexDigit (w / 268435456 % 16), hexDigit (w / 16777216 % 16),
   hexDigit (w / 1048576 % 16), hexDigit (w / 65536 % 16),
   hexDigit (w / 4096 % 16), hexDigit (w / 256 % 16),
   hexDigit (w / 16 % 16), hexDigit (w % 16)]

/-- The lower-case hex digest of a byte sequence, as hashlib sha256
hexdigest returns it. -/
def sha256Hex (msg : List Nat) : String :=
  let d := sha256 msg
  String.mk (wordHex d.a ++ wordHex d.b ++ wordHex d.c ++ wordHex d.d ++
    wordHex d.e ++ wordHex d.f ++ wordHex d.g ++ wordHex d.h)

/-- UTF-8 encoding of one character, as Python str.encode produces it. -/
def utf8Char (c : Char) : List Nat :=
  let n := c.toNat
  if n < 128 then [n]
  else if n < 2048 then [192 + n / 64, 128 + n % 64]
  else if n < 65536 then [224 + n / 4096, 128 + n / 64 % 64, 128 + n % 64]
  else [240 + n / 262144, 128 + n / 4096 % 64, 128 + n / 64 % 64, 128 + n % 64]

/-- UTF-8 encoding of a character list. -/
def utf8Encode (s : List Char) : List Nat :=
  s.foldr (fun c acc => utf8Char c ++ acc) []

/-! ### src/cache/dom_cache.py -/

/-- The character class of a data-attribute name in the fingerprint
regex. -/
def isDataNameChar (c : Char) : Bool := c.isAlphanum || c = '_' || c = '-'

/-- Step removing one volatile data attribute: one or more whitespace
characters, the literal data-, one or more name characters, an equals sign
and a double-quoted value; case-sensitive. -/
def stepDataAttr (s : List Char) : Option (List Char × List Char) :=
  if (s.takeWhile isPySpace).isEmpty then none
  else
    match matchCS "data-".data (s.dropWhile isPySpace) with
    | none => none
    | some r1 =>
      if (r1.takeWhile isDataNameChar).isEmpty then none
      else
        match r1.dropWhile isDataNameChar with
        | '=' :: '"' :: r3 =>
          match dropToChar '"' r3 with
          | none => none
          | some rest => some ([], rest)
        | _ => none

/-- Step removing one generated-looking id attribute: one or more
whitespace characters, the literal id equals quote, twenty or more
alphanumeric characters and the closing quote; case-sensitive. -/
def stepIdAttr (s : List Char) : Option (List Char × List Char) :=
  if (s.takeWhile isPySpace).isEmpty then none
  else
    match matchCS ("id=".data ++ ['"']) (s.dropWhile isPySpace) with
    | none => none
    | some r1 =>
      if (r1.takeWhile Char.isAlphanum).length < 20 then none
      else
        match r1.dropWhile Char.isAlphanum with
        | '"' :: rest => some ([], rest)
        | _ => none

/-- Step collapsing one whitespace run to a single space. -/
def stepWs (s : List Char) : Option (List Char × List Char) :=
  match s with
  | [] => none
  | c :: cs => if isPySpace c then some ([' '], cs.dropWhile isPySpace) else none

/-- Python str.strip for ASCII whitespace. -/
def stripSpace (s : List Char) : List Char :=
  ((s.dropWhile isPySpace).reverse.dropWhile isPySpace).reverse

/-- The normalization pipeline of compute_dom_hash: remove script, iframe,
noscript and style blocks, comments, data attributes and generated ids,
collapse whitespace and strip. -/
def cleanDom (html : List Char) : List Char :=
  stripSpace (runSub stepWs (runSub stepIdAttr (runSub stepDataAttr (runSub stepComment
    (runSub (stepTagRemove "style".data) (runSub (stepTagRemove "noscript".data)
      (runSub (stepTagRemove "iframe".data)
        (runSub (stepTagRemove "script".data) html))))))))

/-- src/cache/dom_cache.py compute_dom_hash: the SHA-256 hex digest of the
UTF-8 encoding of the normalized markup. -/
def compute_dom_hash (html : String) : String :=
  sha256Hex (utf8Encode (cleanDom html.data))

/-- src/cache/dom_cache.py is_same_dom. -/
def is_same_dom (hash1 hash2 : String) : Bool := hash1 = hash2

/-- The text inserted into markup when a double-quoted data attribute is
added: a space, the literal data-, the attribute name, an equals sign and
the quoted value. -/
def dataIns (name val : List Char) : List Char :=
  ' ' :: ("data-".data ++ (name ++ ('=' :: '"' :: (val ++ ['"']))))

/-! ### src/guardrails/input_guard.py -/

/-- Does the string start with the given literal? -/
def startsWithL (p s : List Char) : Bool := (matchCS p s).isSome

/-- Python substring membership. -/
def containsL (pat : List Char) : List Char → Bool
  | [] => (matchCS pat []).isSome
  | c :: cs => (matchCS pat (c :: cs)).isSome || containsL pat cs

/-- Case-insensitive substring occurrence (pattern given in lower case),
scanning every suffix. -/
def containsCI (pat : List Char) : List Char → Bool
  | [] => (matchCI pat []).isSome
  | c :: cs => (matchCI pat (c :: cs)).isSome || containsCI pat cs

/-- The static blocklist of input_guard.py. -/
def BLOCKED_DOMAINS : List String :=
  ["malicious-site.com", "phishing.org", "example-blocked.net"]

/-- urlsplit removes the unsafe bytes tab, carriage return and line feed
anywhere in the url before parsing anything. -/
def urlUnsafeFilter (s : List Char) : List Char :=
  s.filter (fun c => !(c = '\t' || c = '\r' || c = '\n'))

/-- urllib.parse netloc for the urls that reach the blocklist check (they
are guaranteed by the preceding scheme check to start with an explicit
http or https scheme): after the unsafe-byte removal, the characters
after the double slash up to the first slash, question mark or hash. -/
def netloc (url : List Char) : List Char :=
  match matchCS "http://".data (urlUnsafeFilter url) with
  | some r => r.takeWhile (fun c => !(c = '/' || c = '?' || c = '#'))
  | none =>
    match matchCS "https://".data (urlUnsafeFilter url) with
    | some r => r.takeWhile (fun c => !(c = '/' || c = '?' || c = '#'))
    | none => []

/-- The invalid-IPv6 test of urlsplit: a square bracket on one side only
makes the parse raise, which input_guard.py converts into a rejection.
(CPython 3.11 and later additionally validate the inside of a balanced
bracket pair; that refinement is outside this model, whose blocklist
targets bracket-free hosts.) -/
def netlocBadBrackets (n : List Char) : Bool :=
  (n.contains '[' && !(n.contains ']')) || (n.contains ']' && !(n.contains '['))

/-- The partial state update returned by validate_input: a Python dict
holding either the url key or the error key. -/
structure GuardResult where
  url : Option String := none
  error : Option String := none

/-- src/guardrails/input_guard.py validate_input: reject an empty url, a
url without an explicit http or https scheme, a url whose parse raises
(unbalanced bracket in the host, caught by the except branch), and a url
whose parsed host contains a blocklisted domain as a substring; otherwise
pass the url. -/
def validate_input (url : String) : GuardResult :=
  if url = "" then { error := some "URL is missing" }
  else if !(startsWithL "http://".data url.data || startsWithL "https://".data url.data) then
    { error := some "Invalid URL format. Must start with http:// or https://" }
  else if netlocBadBrackets (netloc url.data) then
    { error := some "URL parsing failed: Invalid IPv6 URL" }
  else
    if BLOCKED_DOMAINS.any (fun b => containsL b.data (netloc url.data)) then
      { error := some ("Domain " ++ String.mk (netloc url.data) ++ " is in the blocklist.") }
    else { url := some url }

/-! ### src/tools/critic.py -/

/-- One node-level evidence record as normalized by the scanner: a markup
snippet and a selector. -/
structure ScanNode where
  html : String
  target : String
deriving DecidableEq

/-- A finding as read by critique_issues: the dict keys it accesses, with
nodes_affected optional because the pipeline never sets that key. -/
structure CFinding where
  rule : String
  description : String
  wcag_sc : String
  fix_priority : String
  nodes_affected : Option Nat
  specific_nodes : List ScanNode
deriving DecidableEq

/-- One aggregate record per rule produced by critique_issues. -/
structure GroupedIssue where
  rule : String
  description : String
  wcag_sc : String
  fix_priority : String
  total_occurrences : Nat
  code_snippets : List ScanNode
deriving DecidableEq

/-- The fresh aggregate created when a rule is first seen. -/
def groupBase (f : CFinding) : GroupedIssue :=
  ⟨f.rule, f.description, f.wcag_sc, f.fix_priority, 0, []⟩

/-- The per-finding update of an aggregate: add the affected-node count
(default one) and extend the snippet list only while it holds fewer than
five snippets. -/
def groupBump (f : CFinding) (g : GroupedIssue) : GroupedIssue :=
  { g with
    total_occurrences := g.total_occurrences + f.nodes_affected.getD 1,
    code_snippets :=
      if g.code_snippets.length < 5 then g.code_snippets ++ f.specific_nodes
      else g.code_snippets }

/-- Fold one finding into the insertion-ordered aggregate list. -/
def groupAdd (f : CFinding) : List GroupedIssue → List GroupedIssue
  | [] => [groupBump f (groupBase f)]
  | g :: gs => if g.rule = f.rule then groupBump f g :: gs else g :: groupAdd f gs

/-- src/tools/critic.py critique_issues: group findings by rule into
insertion-ordered aggregates. -/
def critique_issues (issues : List CFinding) : List GroupedIssue :=
  issues.foldl (fun acc f => groupAdd f acc) []

/-! ### src/slm/fast_critic.py -/

/-- Parsed JSON, the shape json.loads produces. -/
inductive Json where
  | null : Json
  | bool : Bool → Json
  | num : Int → Json
  | str : String → Json
  | arr : List Json → Json
  | obj : List (String × Json) → Json

/-- Python dict lookup on a parsed JSON object. -/
def jLookup (k : String) : List (String × Json) → Option Json
  | [] => none
  | (k0, v) :: rest => if k0 = k then some v else jLookup k rest

/-- Whether a JSON value may be put in a Python set without raising. -/
def jsonHashable : Json → Bool
  | .arr _ => false
  | .obj _ => false
  | _ => true

/-- Python enumerate. -/
def withIdx {α : Type} : Nat → List α → List (Nat × α)
  | _, [] => []
  | n, a :: as => (n, a) :: withIdx (n + 1) as

/-- Membership of an index in the keep set: an integer is equal only to
the integer elements of the parsed array. -/
def keepNum (elems : List Json) (i : Nat) : Bool :=
  elems.any (fun j => match j with | .num m => m = (i : Int) | _ => false)

/-- The keep-indices list comprehension of model_based_filter. -/
def keepFilter {α : Type} (elems : List Json) (issues : List α) : List α :=
  ((withIdx 0 issues).filter (fun p => keepNum elems p.1)).map Prod.snd

/-- src/slm/fast_critic.py model_based_filter, abstracted over the oracle
round trip: the Except argument is the classification response after the
markdown stripping and json.loads of the source, with error covering both
a failed call and unparseable JSON.  Success paths mirror the Python data
handling: a non-object response raises on attribute access and is caught
by the except clause, a missing keep_indices key defaults to an empty
list, a string value iterates to characters that match no index, a value
that cannot be turned into a set raises and is caught. -/
def model_based_filter {α : Type} (useSlm : Bool) (issues : List α)
    (resp : Except Unit Json) : List α :=
  if !useSlm || issues.isEmpty then issues
  else
    match resp with
    | .error _ => issues
    | .ok (.obj fields) =>
      match jLookup "keep_indices" fields with
      | none => keepFilter [] issues
      | some (.arr elems) =>
        if elems.all jsonHashable then keepFilter elems issues else issues
      | some (.str _) => keepFilter [] issues
      | some _ => issues
    | .ok _ => issues

/-! ### src/tools/dom_scanner.py and src/tools/wcag_mapper.py data -/

/-- One raw violation as normalized by clean_violations in dom_scanner.py:
the keys it emits are id, impact, description, count and nodes. -/
structure ScanViolation where
  id : String
  impact : String
  description : String
  count : Nat
  nodes : List ScanNode
deriving DecidableEq

/-- One entry of the WCAG_RULES table: the fields the mapper reads. -/
structure RuleDef where
  sc : String
  level : String
  since : String
  title : String
  india_priority : String

/-- The static rule table of wcag_mapper.py. -/
def WCAG_RULES : List (String × RuleDef) :=
  [("accesskeys", ⟨"2.1.4", "A", "2.1", "Character Key Shortcuts", "LOW"⟩),
   ("aria-allowed-attr", ⟨"4.1.2", "A", "2.1", "Name, Role, Value", "HIGH"⟩),
   ("aria-hidden-body", ⟨"4.1.2", "A", "2.1", "Name, Role, Value", "HIGH"⟩),
   ("aria-hidden-focus", ⟨"4.1.2", "A", "2.1", "Name, Role, Value", "HIGH"⟩),
   ("aria-input-field-name", ⟨"4.1.2", "A", "2.1", "Name, Role, Value", "HIGH"⟩),
   ("aria-required-attr", ⟨"4.1.2", "A", "2.1", "Name, Role, Value", "HIGH"⟩),
   ("aria-required-children", ⟨"1.3.1", "A", "2.1", "Info and Relationships", "MEDIUM"⟩),
   ("aria-roles", ⟨"4.1.2", "A", "2.1", "Name, Role, Value", "HIGH"⟩),
   ("aria-valid-attr-value", ⟨"4.1.2", "A", "2.1", "Name, Role, Value", "HIGH"⟩),
   ("aria-valid-attr", ⟨"4.1.2", "A", "2.1", "Name, Role, Value", "HIGH"⟩),
   ("button-name", ⟨"4.1.2", "A", "2.1", "Name, Role, Value", "CRITICAL"⟩),
   ("bypass", ⟨"2.4.1", "A", "2.1", "Bypass Blocks", "HIGH"⟩),
   ("color-contrast", ⟨"1.4.3", "AA", "2.1", "Contrast (Minimum)", "CRITICAL"⟩),
   ("document-title", ⟨"2.4.2", "A", "2.1", "Page Titled", "HIGH"⟩),
   ("frame-title", ⟨"4.1.2", "A", "2.1", "Name, Role, Value", "MEDIUM"⟩),
   ("html-has-lang", ⟨"3.1.1", "A", "2.1", "Language of Page", "HIGH"⟩),
   ("html-lang-valid", ⟨"3.1.1", "A", "2.1", "Language of Page", "HIGH"⟩),
   ("image-alt", ⟨"1.1.1", "A", "2.1", "Non-text Content", "CRITICAL"⟩),
   ("input-image-alt", ⟨"1.1.1", "A", "2.1", "Non-text Content", "CRITICAL"⟩),
   ("label", ⟨"3.3.2", "A", "2.1", "Labels or Instructions", "CRITICAL"⟩),
   ("link-name", ⟨"2.4.4", "A", "2.1", "Link Purpose (In Context)", "HIGH"⟩),
   ("meta-viewport", ⟨"1.4.4", "AA", "2.1", "Resize Text", "MEDIUM"⟩),
   ("tabindex", ⟨"2.1.1", "A", "2.1", "Keyboard", "MEDIUM"⟩),
   ("select-name", ⟨"4.1.2", "A", "2.1", "Name, Role, Value", "CRITICAL"⟩),
   ("focus-not-obscured", ⟨"2.4.11", "AA", "2.2", "Focus Not Obscured", "MEDIUM"⟩),
   ("focus-appearance", ⟨"2.4.11", "AA", "2.2", "Focus Appearance", "MEDIUM"⟩),
   ("target-size", ⟨"2.5.8", "AA", "2.2", "Target Size (Minimum)", "MEDIUM"⟩),
   ("dragging-movements", ⟨"2.5.7", "A", "2.2", "Dragging Movements", "LOW"⟩),
   ("consistent-help", ⟨"3.2.6", "A", "2.2", "Consistent Help", "LOW"⟩),
   ("redundant-entry", ⟨"3.3.7", "A", "2.2", "Redundant Entry", "LOW"⟩),
   ("accessible-authentication-minimum", ⟨"3.3.8", "A", "2.2", "Accessible Authentication", "MEDIUM"⟩),
   ("heading-order", ⟨"G130", "Best", "2.1", "Heading Order", "MEDIUM"⟩),
   ("landmark-one-main", ⟨"Best", "Best", "2.1", "One Main Landmark", "MEDIUM"⟩),
   ("page-has-heading-one", ⟨"Best", "Best", "2.1", "Page should have <h1>", "HIGH"⟩),
   ("region", ⟨"Best", "Best", "2.1", "Landmark Regions", "MEDIUM"⟩)]

/-- The GIGW 3.0 mapping of wcag_mapper.py. -/
def GIGW_MAPPING : List (String × String) :=
  [("1.1.1", "9.1.1 (Non-text Content)"),
   ("1.3.1", "9.1.3 (Info and Relationships)"),
   ("1.4.3", "9.1.4 (Contrast Minimum)"),
   ("2.1.1", "9.2.1 (Keyboard)"),
   ("2.4.1", "9.2.4 (Bypass Blocks)"),
   ("2.4.2", "9.2.4 (Page Titled)"),
   ("2.4.4", "9.2.4 (Link Purpose)"),
   ("3.1.1", "9.3.1 (Language of Page)"),
   ("3.3.2", "9.3.3 (Labels or Instructions)"),
   ("4.1.2", "9.4.1 (Name, Role, Value)")]

/-- Python dict lookup on a static association list. -/
def tableGet {α : Type} (k : String) : List (String × α) → Option α
  | [] => none
  | (k0, v) :: rest => if k0 = k then some v else tableGet k rest

/-- An enriched finding, as produced by enrich_with_wcag spreading the
scanner violation and adding the mapper fields.  The selector key is read
by the heuristic filter with an empty default and is never set on this
path, so it is carried here as an always-empty field. -/
structure EFinding where
  id : String
  impact : String
  description : String
  count : Nat
  nodes : List ScanNode
  rule : String
  wcag_sc : String
  wcag_title : String
  gigw_checkpoint : String
  fix_priority : String
  specific_nodes : List ScanNode
  india_priority : String
  selector : String := ""
deriving DecidableEq

/-- src/tools/wcag_mapper.py enrich_with_wcag: look the rule up in the
static table (the fallback title is the rule id because clean_violations
never emits a help key), attach the compliance metadata, derive the fix
priority from the national priority and pass the nodes through. -/
def enrich_with_wcag (v : ScanViolation) : EFinding :=
  let data := (tableGet v.id WCAG_RULES).getD ⟨"Unknown", "?", "2.1", v.id, "LOW"⟩
  { id := v.id, impact := v.impact, description := v.description,
    count := v.count, nodes := v.nodes, rule := v.id, wcag_sc := data.sc,
    wcag_title := data.title,
    gigw_checkpoint := (tableGet data.sc GIGW_MAPPING).getD "N/A - Best Practice",
    fix_priority := if data.india_priority = "CRITICAL" then "HIGH" else "MEDIUM",
    specific_nodes := v.nodes, india_priority := data.india_priority }

/-- The loop of heuristic_filter with its set of already-seen selectors. -/
def heuristicGo (seen : List String) : List EFinding → List EFinding
  | [] => []
  | i :: rest =>
    if i.id = "color-contrast" && i.impact = "minor" then heuristicGo seen rest
    else if i.id = "region" then heuristicGo seen rest
    else if i.selector ≠ "" && seen.contains i.selector then heuristicGo seen rest
    else if i.nodes.isEmpty && i.specific_nodes.isEmpty then heuristicGo seen rest
    else i :: heuristicGo (if i.selector ≠ "" then i.selector :: seen else seen) rest

/-- src/slm/fast_critic.py heuristic_filter: drop minor contrast findings,
region findings, findings whose selector was already seen and findings
without evidence nodes. -/
def heuristic_filter (issues : List EFinding) : List EFinding :=
  heuristicGo [] issues

/-- The dict view of an enriched finding that critique_issues reads: the
nodes_affected key is never set on this path. -/
def toCFinding (e : EFinding) : CFinding :=
  ⟨e.rule, e.description, e.wcag_sc, e.fix_priority, none, e.specific_nodes⟩

/-- src/slm/fast_critic.py fast_critique: the mandatory heuristic tier
followed by the optional model tier. -/
def fast_critique (useSlm : Bool) (tier2 : Except Unit Json)
    (issues : List EFinding) : List EFinding :=
  let issues1 := heuristic_filter issues
  if useSlm && issues1.length > 0 then model_based_filter useSlm issues1 tier2
  else issues1

/-! ### src/backend/graph/state.py and src/graph/nodes.py

LangGraph threads one shared state dict through the node chain, merging
the partial dict each node returns.  The state is embedded as a structure
with Option-valued fields (none is an absent key), and each node as a
function on the whole state that overwrites exactly the keys the Python
node returns.  Every oracle round trip is an explicit parameter. -/

/-- One link record of the extracted semantic content. -/
structure LinkInfo where
  text : String
  href : String
  html : String
  selector : String
deriving DecidableEq

/-- One heading record of the extracted semantic content. -/
structure HeadingInfo where
  level : String
  text : String
deriving DecidableEq

/-- One captured interactive element, as the fixer reverse lookup reads
it: tag, visible text and markup. -/
structure ElementInfo where
  tag : String
  text : String
  html : String
deriving DecidableEq

/-- The dom_content slice of the state. -/
structure DomContent where
  links : List LinkInfo := []
  headings : List HeadingInfo := []
  interactive : List ElementInfo := []
deriving DecidableEq

/-- One keyboard-focus trace entry: an absent or empty id is the falsy
Python value. -/
structure TabEntry where
  tag : String
  text : String
  id : String
deriving DecidableEq

/-- An issue record as the nodes build it; Option fields are dict keys
that may be absent or hold None. -/
structure Issue where
  rule : String := ""
  category : String := ""
  description : Option String := none
  fix_priority : String := ""
  wcag_sc : String := ""
  html_snippet : Option String := none
  selector : Option String := none
  ai_explanation : Option String := none
  ai_fixed_code : Option String := none
  total_occurrences : Option Nat := none
deriving DecidableEq

/-- The AuditState of src/backend/graph/state.py. -/
structure AuditState where
  url : String := ""
  error : Option String := none
  raw_violations : Option (List EFinding) := none
  screenshot_b64 : Option String := none
  dom_hash : Option String := none
  dom_content : Option DomContent := none
  tab_log : Option (List TabEntry) := none
  critiqued_issues : Option (List Issue) := none
  vision_issues : Option (List Issue) := none
  semantic_issues : Option (List Issue) := none
  interaction_issues : Option (List Issue) := none
  final_report : Option (List Issue) := none

/-- Python truthiness of a possibly absent string value. -/
def pyTruthy : Option String → Bool
  | none => false
  | some s => s ≠ ""

/-- Node 0: merge the partial update of validate_input into the state —
present keys overwrite, absent keys are untouched. -/
def input_guard_node (st : AuditState) : AuditState :=
  let r := validate_input st.url
  { st with url := r.url.getD st.url, error := r.error <|> st.error }

/-- The success payload of the dom_scanner scan_page tool. -/
structure ScanSuccess where
  violations : List ScanViolation := []
  screenshot : Option String := none
  title : String := ""
  html : String := ""
  dom_content : DomContent := {}
  tab_log : List TabEntry := []

/-- Node 1 (scanner_node): skip on an upstream error re-emitting only the
error key; on a scan error reset the evidence fields; on success enrich
the violations, pass the evidence through and fingerprint the markup. -/
def scanner_node (scanRes : Except String ScanSuccess) (st : AuditState) : AuditState :=
  if st.error.isSome then st
  else
    match scanRes with
    | .error _ =>
      { st with
        raw_violations := some []
        screenshot_b64 := none
        dom_content := some {}
        tab_log := some []
        dom_hash := some "" }
    | .ok r =>
      { st with
        raw_violations := some (r.violations.map enrich_with_wcag)
        screenshot_b64 := r.screenshot
        dom_content := some r.dom_content
        tab_log := some r.tab_log
        dom_hash := some (if r.html = "" then "" else compute_dom_hash r.html) }

/-- The issue shape the critic node exposes for one grouped rule: tag the
category as syntax and surface the first collected snippet (the Python
x-or-default expressions reduce to the plain snippet fields because a
grouped dict never carries html_snippet or selector keys). -/
def critiquedToIssue (g : GroupedIssue) : Issue :=
  let base : Issue :=
    { rule := g.rule, category := "syntax", description := some g.description,
      fix_priority := g.fix_priority, wcag_sc := g.wcag_sc,
      total_occurrences := some g.total_occurrences }
  match g.code_snippets with
  | [] => base
  | first :: _ => { base with html_snippet := some first.html, selector := some first.target }

/-- Node 2 (critic_node): the hybrid SLM layer followed by grouping and
the per-issue post-processing. -/
def critic_node (useSlm : Bool) (tier2 : Except Unit Json) (st : AuditState) : AuditState :=
  let issues := fast_critique useSlm tier2 (st.raw_violations.getD [])
  { st with
    critiqued_issues :=
      some ((critique_issues (issues.map toCFinding)).map critiquedToIssue) }

/-- One item of the semantic-oracle response, each key optional. -/
structure SemItem where
  rule : Option String := none
  description : Option String := none
  fix : Option String := none
  selector : Option String := none
  html_snippet : Option String := none
deriving DecidableEq

/-- The issue built from one semantic-oracle item, with the defaults of
the source; the fix suggested by the oracle is stored directly in the
ai_fixed_code field. -/
def mkSemIssue (item : SemItem) : Issue :=
  { rule := item.rule.getD "semantic-issue", category := "semantic",
    description := some (item.description.getD "Semantic issue found."),
    fix_priority := "MEDIUM", wcag_sc := "2.4.4",
    html_snippet := some (item.html_snippet.getD "Semantic Analysis"),
    selector := some (item.selector.getD "N/A"),
    ai_explanation := item.description,
    ai_fixed_code := some (item.fix.getD "Update the text or structure.") }

/-- Node 3 (semantic_node): empty result without evidence, empty result on
an oracle failure, otherwise one issue per response item. -/
def semantic_node (orc : Except Unit (List SemItem)) (st : AuditState) : AuditState :=
  let content := st.dom_content.getD {}
  if content.links.isEmpty && content.headings.isEmpty then
    { st with semantic_issues := some [] }
  else
    match orc with
    | .ok items => { st with semantic_issues := some (items.map mkSemIssue) }
    | .error _ => { st with semantic_issues := some [] }

/-- The non-interactive tag list of the interaction node. -/
def nonInteractiveTags : List String :=
  ["DIV", "SPAN", "P", "H1", "H2", "H3", "H4", "H5", "H6"]

/-- The focus-trap issue of the interaction node. -/
def focusLostIssue (n : Nat) : Issue :=
  { rule := "keyboard-focus-lost", category := "interaction",
    fix_priority := "CRITICAL", wcag_sc := "2.4.7",
    description := some ("Focus lost to <body> tag " ++ toString n ++
      " times during keyboard navigation. This indicates a focus trap or missing focus management."),
    html_snippet := some "Focus management issue detected",
    ai_explanation := some "When users press Tab, focus should move to the next interactive element. If focus jumps to <body>, users lose track of where they are on the page.",
    ai_fixed_code := some "Ensure all interactive elements are keyboard accessible. Add tabindex=\x270\x27 to custom interactive elements or use semantic HTML like <button> instead of <div>." }

/-- The non-interactive-focus issue of the interaction node. -/
def nonInteractiveIssue (first : TabEntry) (n : Nat) : Issue :=
  { rule := "non-interactive-tabindex", category := "interaction",
    fix_priority := "MEDIUM", wcag_sc := "2.4.3",
    description := some ("Found " ++ toString n ++
      " non-interactive elements with keyboard focus, which can confuse keyboard users."),
    html_snippet := some ("<" ++ first.tag ++ " tabindex=\x27...\x27>"),
    ai_explanation := some "Non-interactive elements (div, span, p) should not receive keyboard focus unless they have an interactive role.",
    ai_fixed_code := some "Remove tabindex from non-interactive elements or add appropriate ARIA roles like role=\x27button\x27 if they are meant to be interactive." }

/-- The limited-keyboard-access issue of the interaction node. -/
def limitedIssue (n : Nat) : Issue :=
  { rule := "limited-keyboard-access", category := "interaction",
    fix_priority := "HIGH", wcag_sc := "2.1.1",
    description := some ("Only " ++ toString n ++
      " elements are keyboard accessible. This page may have insufficient keyboard navigation."),
    html_snippet := some "Page-wide keyboard accessibility issue",
    ai_explanation := some "A typical page should have many focusable elements (links, buttons, form inputs). Very few focusable elements suggests missing keyboard access.",
    ai_fixed_code := some "Ensure all interactive elements (buttons, links, form controls) are keyboard accessible. Avoid using <div> or <span> for interactive elements without proper tabindex and ARIA roles." }

/-- The duplicate-id issue of the interaction node. -/
def dupIssue (elemId : String) : Issue :=
  { rule := "duplicate-id-focusable", category := "interaction",
    fix_priority := "CRITICAL", wcag_sc := "4.1.1",
    description := some ("Duplicate ID \x27" ++ elemId ++
      "\x27 found on focusable elements. This breaks assistive technology."),
    html_snippet := some ("<... id=\x27" ++ elemId ++ "\x27>"),
    ai_explanation := some "IDs must be unique on a page. Duplicate IDs on focusable elements confuse screen readers and keyboard navigation.",
    ai_fixed_code := some ("Change one of the elements to use a unique ID, e.g., id=\x27" ++ elemId ++ "-2\x27") }

/-- The duplicate-id scan: report only the first duplicate, then stop. -/
def dupScan (seen : List String) : List TabEntry → List Issue
  | [] => []
  | e :: es =>
    if e.id ≠ "" then
      if seen.contains e.id then [dupIssue e.id]
      else dupScan (e.id :: seen) es
    else dupScan seen es

/-- The four deterministic checks of the interaction node, in source
order. -/
def interactionIssues (log : List TabEntry) : List Issue :=
  (if 1 < (log.filter (fun e => e.tag = "BODY")).length then
    [focusLostIssue (log.filter (fun e => e.tag = "BODY")).length] else []) ++
  (match log.filter (fun e => nonInteractiveTags.contains e.tag) with
   | [] => []
   | f :: fs => [nonInteractiveIssue f (fs.length + 1)]) ++
  (if log.length < 5 then [limitedIssue log.length] else []) ++
  dupScan [] log

/-- Node 4 (interaction_node): empty result without a trace, otherwise the
deterministic checks. -/
def interaction_node (st : AuditState) : AuditState :=
  let log := st.tab_log.getD []
  if log.isEmpty then { st with interaction_issues := some [] }
  else { st with interaction_issues := some (interactionIssues log) }

/-- One item of the vision-oracle response. -/
structure VisItem where
  description : Option String := none
  explanation : Option String := none
deriving DecidableEq

/-- The issue built from one vision-oracle item. -/
def mkVisIssue (i : VisItem) : Issue :=
  { rule := "visual-ai-scan", category := "visual", fix_priority := "HIGH",
    wcag_sc := "1.4.3", description := i.description,
    html_snippet := some "Visual Detection", ai_explanation := i.explanation,
    ai_fixed_code := some "Check CSS contrast/spacing." }

/-- Node 5 (vision_analyzer_node): empty result without a screenshot or on
an oracle failure, otherwise one issue per response item. -/
def vision_analyzer_node (orc : Except Unit (List VisItem)) (st : AuditState) : AuditState :=
  if !pyTruthy st.screenshot_b64 then { st with vision_issues := some [] }
  else
    match orc with
    | .ok items => { st with vision_issues := some (items.map mkVisIssue) }
    | .error _ => { st with vision_issues := some [] }

/-- The parsed fixer-oracle response, each key optional. -/
structure FixResp where
  explanation : Option String := none
  fixed_code : Option String := none
deriving DecidableEq

/-- The skip test of the fixer: an issue already carrying a truthy fix
other than the placeholder passes through unchanged. -/
def skipFixed (issue : Issue) : Bool :=
  pyTruthy issue.ai_fixed_code && issue.ai_fixed_code ≠ some "<!-- Fix -->"

/-- The capture of the first-quoted-text regex after an opening quote:
characters up to the next single quote, failing on a newline or the end
(the dot of the pattern does not match a newline). -/
def quotedCapture : List Char → Option (List Char)
  | [] => none
  | c :: cs =>
    if c = Char.ofNat 39 then some []
    else if c = '\n' then none
    else (quotedCapture cs).map (fun l => c :: l)

/-- The first single-quoted text of a string, empty when there is none
(an empty capture and a missing match are both falsy downstream). -/
def firstQuoted : List Char → List Char
  | [] => []
  | c :: cs =>
    if c = Char.ofNat 39 then
      match quotedCapture cs with
      | some cap => cap
      | none => firstQuoted cs
    else firstQuoted cs

/-- Python str.lower for ASCII. -/
def lowerL (s : List Char) : List Char := s.map lcChar

/-- The reverse lookup of the fixer for visual issues without concrete
evidence: extract the first quoted text of the description and adopt the
markup of the first captured interactive element containing it.  A state
whose description key holds None would raise in Python; that path is
unreachable because every visual issue arrives with its fix field already
set and is skipped before this lookup. -/
def reverseLookup (interactive : List ElementInfo) (issue : Issue) : Issue :=
  let searchText := firstQuoted (issue.description.getD "").data
  if searchText.isEmpty then issue
  else
    match interactive.find? (fun el => containsL (lowerL searchText) (lowerL el.text.data)) with
    | some el =>
      { issue with
        html_snippet := some el.html
        selector := some ("<" ++ el.tag ++ "> containing \x27" ++
          String.mk searchText ++ "\x27") }
    | none => issue

/-- The guard of the reverse lookup: a visual issue whose snippet is falsy
or is only the visual-detection placeholder. -/
def visualLookupCond (issue : Issue) : Bool :=
  issue.category = "visual" &&
    (!pyTruthy issue.html_snippet ||
      containsL "Visual Detection".data (issue.html_snippet.getD "").data)

/-- The generate path of the fixer for one issue: optional reverse lookup,
then the oracle round trip; a successful response is sanitized by
validate_fix before being stored, a failed one yields the manual-review
placeholders. -/
def fixGenerate (interactive : List ElementInfo) (orc : Issue → Except Unit FixResp)
    (issue : Issue) : Issue :=
  let issue1 := if visualLookupCond issue then reverseLookup interactive issue else issue
  match orc issue1 with
  | .ok r =>
    { issue1 with
      ai_explanation := some (r.explanation.getD "AI Explanation")
      ai_fixed_code := some (validate_fix (r.fixed_code.getD "<!-- Check CSS -->")) }
  | .error _ =>
    { issue1 with
      ai_explanation := some "Manual review recommended."
      ai_fixed_code := some "<!-- Manual Review -->" }

/-- The handling of one issue by the fixer loop body. -/
def fixIssue (interactive : List ElementInfo) (orc : Issue → Except Unit FixResp)
    (issue : Issue) : Issue :=
  if skipFixed issue then issue else fixGenerate interactive orc issue

/-- The fixer loop: walk the accumulated issues, appending exactly one
processed issue per input issue to the report under construction. -/
def fixerLoop (interactive : List ElementInfo) (orc : Issue → Except Unit FixResp)
    (acc : List Issue) : List Issue → List Issue
  | [] => acc
  | issue :: rest =>
    if skipFixed issue then fixerLoop interactive orc (acc ++ [issue]) rest
    else fixerLoop interactive orc (acc ++ [fixGenerate interactive orc issue]) rest

/-- Node 6 (fixer_node): concatenate the four category lists in source
order and run the fixer loop over them. -/
def fixer_node (orc : Issue → Except Unit FixResp) (st : AuditState) : AuditState :=
  let interactive := (st.dom_content.getD {}).interactive
  let allIssues := st.critiqued_issues.getD [] ++ st.vision_issues.getD [] ++
    st.semantic_issues.getD [] ++ st.interaction_issues.getD []
  { st with final_report := some (fixerLoop interactive orc [] allIssues) }

/-- src/backend/graph/workflow.py create_audit_graph: the linear chain
input guard, scanner, critic, semantic, interaction, vision, fixer,
invoked on the initial state holding only the url. -/
def run_audit_graph (scanRes : Except String ScanSuccess) (useSlm : Bool)
    (tier2 : Except Unit Json) (semOrc : Except Unit (List SemItem))
    (visOrc : Except Unit (List VisItem)) (fixOrc : Issue → Except Unit FixResp)
    (url : String) : AuditState :=
  fixer_node fixOrc
    (vision_analyzer_node visOrc
      (interaction_node
        (semantic_node semOrc
          (critic_node useSlm tier2
            (scanner_node scanRes
              (input_guard_node { url := url }))))))

/-! ## Theorems -/

/-- Rebuilding a string from its characters is the identity. -/
theorem string_mk_data (s : String) : String.mk s.data = s := by
  cases s
  rfl

/-- Claim C6 (corrected): the sanitizer passes run in sequence over the
same evolving payload, so text freed by a later pass can splice into a
forbidden pattern that no pass removes.  On the concrete payload below the
javascript-scheme pass reassembles a complete script block, which the
output therefore contains (the script pass itself, re-run on the output,
would still find a match), and the output is even annotated as sanitized. -/
theorem C6_counterexample :
    runSub stepScriptGuard (validate_fix "<scrjavascript:ipt>alert(1)</script>").data ≠
      (validate_fix "<scrjavascript:ipt>alert(1)</script>").data ∧
    validate_fix "<scrjavascript:ipt>alert(1)</script>" =
      String.mk ("<script>alert(1)</script>\n<!-- EmpathAI Guard: Unsafe content removed -->".data) := by
  constructor
  · decide
  · decide

/-- Claim C6 (amended): a payload on which all four removal passes are
no-ops (it contains no script block, no javascript scheme and no inline
handler in either quote style) is returned by validate_fix unchanged,
with no annotation appended; the unconditional absence guarantee for the
output fails, as the counterexample shows. -/
theorem C6_theorem (s : String)
    (h1 : runSub stepScriptGuard s.data = s.data)
    (h2 : runSub stepJs s.data = s.data)
    (h3 : runSub (stepHandler '"') s.data = s.data)
    (h4 : runSub (stepHandler (Char.ofNat 39)) s.data = s.data) :
    validate_fix s = s := by
  by_cases hs : s = ""
  · subst hs
    rfl
  · simp only [validate_fix, if_neg hs, h1, h2, h3, h4, if_pos, string_mk_data]

/-- Witness for C6_theorem at a concrete clean payload. -/
theorem C6_theorem_witness :
    runSub stepScriptGuard "<div>Accessible</div>".data = "<div>Accessible</div>".data ∧
    validate_fix "<div>Accessible</div>" = "<div>Accessible</div>" :=
  ⟨by decide, C6_theorem "<div>Accessible</div>" (by decide) (by decide) (by decide) (by decide)⟩

/-- The indexed filter behind the keep-indices comprehension only selects
elements of its input. -/
theorem withIdx_filter_sublist {α : Type} (elems : List Json) :
    ∀ (n : Nat) (issues : List α),
      (((withIdx n issues).filter (fun p => keepNum elems p.1)).map Prod.snd).Sublist issues := by
  intro n issues
  induction issues generalizing n with
  | nil => simp [withIdx]
  | cons a rest ih =>
    simp only [withIdx, List.filter_cons]
    by_cases h : keepNum elems n = true
    · simp only [h, if_pos, List.map_cons]
      exact (ih (n + 1)).cons₂ a
    · simp only [h, Bool.false_eq_true, if_neg, reduceIte]
      exact (ih (n + 1)).cons a

/-- The keep-indices comprehension only selects elements of its input. -/
theorem keepFilter_sublist {α : Type} (elems : List Json) (issues : List α) :
    (keepFilter elems issues).Sublist issues :=
  withIdx_filter_sublist elems 0 issues

/-- Claim C3 (corrected): the tier-2 filter no-ops on a call or parse
failure, and its output is always a sublist of its input; but a response
that parses to a JSON object while missing the keep_indices integer array
is not a no-op — the missing key defaults to an empty keep set and every
finding is dropped, as the counterexample shows. -/
theorem C3_theorem {α : Type} (useSlm : Bool) (issues : List α) (resp : Except Unit Json) :
    ((∃ e, resp = .error e) → model_based_filter useSlm issues resp = issues) ∧
    (model_based_filter useSlm issues resp).Sublist issues := by
  constructor
  · rintro ⟨e, rfl⟩
    unfold model_based_filter
    split_ifs <;> rfl
  · unfold model_based_filter
    split_ifs with h
    · exact List.Sublist.refl issues
    · rcases resp with e | j
      · exact List.Sublist.refl issues
      · rcases j with _ | b | n | sv | elems | fields
        · exact List.Sublist.refl issues
        · exact List.Sublist.refl issues
        · exact List.Sublist.refl issues
        · exact List.Sublist.refl issues
        · exact List.Sublist.refl issues
        · dsimp only
          cases hk : jLookup "keep_indices" fields with
          | none =>
            simp only [hk]
            exact keepFilter_sublist [] issues
          | some v =>
            rcases v with _ | b2 | n2 | s2 | elems2 | fields2
            · simp only [hk]
              exact List.Sublist.refl issues
            · simp only [hk]
              exact List.Sublist.refl issues
            · simp only [hk]
              exact List.Sublist.refl issues
            · simp only [hk]
              exact keepFilter_sublist [] issues
            · simp only [hk]
              split_ifs with h2
              · exact keepFilter_sublist elems2 issues
              · exact List.Sublist.refl issues
            · simp only [hk]
              exact List.Sublist.refl issues

/-- Witness for C3_theorem at a concrete failure response. -/
theorem C3_theorem_witness :
    (∃ e, (Except.error () : Except Unit Json) = .error e) ∧
    model_based_filter true ["finding"] (.error ()) = ["finding"] ∧
    (model_based_filter true ["finding"] (.error ())).Sublist ["finding"] :=
  ⟨⟨(), rfl⟩, (C3_theorem true ["finding"] (.error ())).1 ⟨(), rfl⟩,
    (C3_theorem true ["finding"] (.error ())).2⟩

/-- Claim C3 counterexample: a response that is a well-formed JSON object
but does not carry the keep_indices array makes tier 2 drop every finding
instead of returning its input unchanged. -/
theorem C3_counterexample :
    model_based_filter true ["finding"] (.ok (.obj [])) = [] ∧
    model_based_filter true ["finding"] (.ok (.obj [])) ≠ ["finding"] := by
  constructor
  · decide
  · decide

/-- Lower-case hex digits, the alphabet of a Python hexdigest. -/
def isHexLower (c : Char) : Bool := ('0' ≤ c && c ≤ '9') || ('a' ≤ c && c ≤ 'f')

/-- Each sub-sixteen value prints as a lower-case hex digit. -/
theorem hexDigit_ok : ∀ n, n < 16 → isHexLower (hexDigit n) = true := by decide

/-- Every character of a word rendering is a lower-case hex digit. -/
theorem wordHex_ok (w : Nat) : ∀ c ∈ wordHex w, isHexLower c = true := by
  intro c hc
  simp only [wordHex, List.mem_cons, List.not_mem_nil, or_false] at hc
  rcases hc with h | h | h | h | h | h | h | h <;>
    (subst h; exact hexDigit_ok _ (Nat.mod_lt _ (by norm_num)))

/-- A word renders as exactly eight characters. -/
theorem wordHex_length (w : Nat) : (wordHex w).length = 8 := rfl

/-- Claim C10 (confirmed): compute_dom_hash is a total function and on
every input string returns a sixty-four character string of lower-case
hex digits, so the sixteen-character fingerprint prefix of the content
cache key is always well defined. -/
theorem C10_theorem (s : String) :
    (compute_dom_hash s).length = 64 ∧
    ∀ c ∈ (compute_dom_hash s).data, isHexLower c = true := by
  constructor
  · show (String.mk _).length = 64
    simp [String.length, sha256Hex, wordHex_length, List.length_append]
  · intro c hc
    have hc2 : c ∈ (wordHex (sha256 (utf8Encode (cleanDom s.data))).a ++
        wordHex (sha256 (utf8Encode (cleanDom s.data))).b ++
        wordHex (sha256 (utf8Encode (cleanDom s.data))).c ++
        wordHex (sha256 (utf8Encode (cleanDom s.data))).d ++
        wordHex (sha256 (utf8Encode (cleanDom s.data))).e ++
        wordHex (sha256 (utf8Encode (cleanDom s.data))).f ++
        wordHex (sha256 (utf8Encode (cleanDom s.data))).g ++
        wordHex (sha256 (utf8Encode (cleanDom s.data))).h) := hc
    simp only [List.mem_append] at hc2
    rcases hc2 with ((((((h | h) | h) | h) | h) | h) | h) | h <;>
      exact wordHex_ok _ c h

/-- The fixer loop is append-of-map: one output issue per input issue, in
order. -/
theorem fixerLoop_eq_map (inter : List ElementInfo) (orc : Issue → Except Unit FixResp) :
    ∀ (l : List Issue) (acc : List Issue),
      fixerLoop inter orc acc l = acc ++ l.map (fixIssue inter orc) := by
  intro l
  induction l with
  | nil =>
    intro acc
    simp [fixerLoop]
  | cons i rest ih =>
    intro acc
    by_cases h : skipFixed i = true
    · rw [fixerLoop, if_pos h, ih]
      simp [fixIssue, h, List.append_assoc]
    · rw [fixerLoop, if_neg h, ih]
      simp [fixIssue, h, List.append_assoc]

/-- The reverse lookup rewrites only the snippet and selector fields. -/
theorem reverseLookup_fields (inter : List ElementInfo) (i : Issue) :
    (reverseLookup inter i).rule = i.rule ∧
    (reverseLookup inter i).category = i.category ∧
    (reverseLookup inter i).description = i.description := by
  unfold reverseLookup
  dsimp only
  split
  · exact ⟨rfl, rfl, rfl⟩
  · split
    · exact ⟨rfl, rfl, rfl⟩
    · exact ⟨rfl, rfl, rfl⟩

/-- Processing an issue in the fixer never rewrites its rule, category or
description. -/
theorem fixIssue_fields (inter : List ElementInfo) (orc : Issue → Except Unit FixResp)
    (i : Issue) :
    (fixIssue inter orc i).rule = i.rule ∧
    (fixIssue inter orc i).category = i.category ∧
    (fixIssue inter orc i).description = i.description := by
  unfold fixIssue fixGenerate
  split
  · exact ⟨rfl, rfl, rfl⟩
  · dsimp only
    split <;> split <;>
      first
      | exact ⟨rfl, rfl, rfl⟩
      | exact ⟨(reverseLookup_fields _ _).1, (reverseLookup_fields _ _).2.1,
          (reverseLookup_fields _ _).2.2⟩

/-- Claim C9 (confirmed): the fixer report is exactly the concatenation of
the four accumulated category lists, in source order (critiqued, vision,
semantic, interaction), with each accumulated issue processed into exactly
one report issue that keeps its rule, category and description. -/
theorem C9_theorem (orc : Issue → Except Unit FixResp) (st : AuditState) :
    (fixer_node orc st).final_report =
      some ((st.critiqued_issues.getD [] ++ st.vision_issues.getD [] ++
        st.semantic_issues.getD [] ++ st.interaction_issues.getD []).map
          (fixIssue (st.dom_content.getD {}).interactive orc)) ∧
    ∀ (inter : List ElementInfo) (orc2 : Issue → Except Unit FixResp) (i : Issue),
      (fixIssue inter orc2 i).rule = i.rule ∧
      (fixIssue inter orc2 i).category = i.category ∧
      (fixIssue inter orc2 i).description = i.description := by
  refine ⟨?_, fun inter orc2 i => fixIssue_fields inter orc2 i⟩
  simp [fixer_node, fixerLoop_eq_map]

/-- An unsafe corrected-markup payload as the semantic oracle could
produce it: the spec scenario markup with an inline handler. -/
def c1Fix : String := "<div onclick=\"evil()\">Buy</div>"

/-- A semantic-oracle response carrying the unsafe fix. -/
def c1SemResp : Except Unit (List SemItem) :=
  .ok [{ rule := some "semantic-link", description := some "Vague link text",
         fix := some c1Fix, selector := some "a", html_snippet := some "<a>x</a>" }]

/-- A successful scan with one link, so the semantic stage runs. -/
def c1Scan : Except String ScanSuccess :=
  .ok { dom_content := { links := [⟨"Click here", "h", "<a>c</a>", "a"⟩] } }

/-- The final state of the full pipeline on that run, with every other
oracle failing. -/
def c1Final : AuditState :=
  run_audit_graph c1Scan false (.error ()) c1SemResp (.error ())
    (fun _ => .error ()) "http://ok.example/"

/-- Claim C1 counterexample: on this run the final report consists of one
semantic issue whose fix field holds the oracle payload verbatim, yet the
sanitizer would have altered that payload — so an oracle-produced fix
reached the final report without passing through validate_fix.  The fixer
skips any issue whose fix field is already populated, and the semantic
stage populates it straight from the oracle. -/
theorem C1_counterexample :
    (c1Final.final_report.getD []).map Issue.ai_fixed_code = [some c1Fix] ∧
    (c1Final.final_report.getD []).map Issue.category = ["semantic"] ∧
    validate_fix c1Fix ≠ c1Fix := by
  refine ⟨by decide, by decide, by decide⟩

/-- Claim C1 (amended): every issue of the fixer report either entered the
fixer already carrying a truthy non-placeholder fix and passes through
unchanged — the path on which semantic-stage oracle fixes bypass the
sanitizer — or carries a fix that is the sanitizer output of some raw
payload.  Sanitization is therefore guaranteed only for fixes generated
inside the fixer stage, not for pre-populated ones. -/
theorem C1_theorem (orc : Issue → Except Unit FixResp) (st : AuditState) :
    ∀ out ∈ (fixer_node orc st).final_report.getD [],
      (skipFixed out = true ∧
        out ∈ st.critiqued_issues.getD [] ++ st.vision_issues.getD [] ++
          st.semantic_issues.getD [] ++ st.interaction_issues.getD []) ∨
      ∃ raw, out.ai_fixed_code = some (validate_fix raw) := by
  intro out hmem
  simp only [fixer_node, fixerLoop_eq_map, List.nil_append, Option.getD_some] at hmem
  obtain ⟨src, hsrc, rfl⟩ := List.mem_map.mp hmem
  by_cases h : skipFixed src = true
  · left
    refine ⟨?_, ?_⟩
    · simp [fixIssue, h]
    · simpa [fixIssue, h] using hsrc
  · right
    unfold fixIssue fixGenerate
    rw [if_neg h]
    dsimp only
    cases horc : orc (if visualLookupCond src = true then
        reverseLookup (st.dom_content.getD {}).interactive src else src) with
    | ok r =>
      exact ⟨r.fixed_code.getD "<!-- Check CSS -->", rfl⟩
    | error e =>
      refine ⟨"<!-- Manual Review -->", ?_⟩
      have hval : validate_fix "<!-- Manual Review -->" = "<!-- Manual Review -->" := by decide
      rw [hval]

/-- The semantic issue built from the unsafe oracle item. -/
def c1Issue : Issue :=
  mkSemIssue { rule := some "semantic-link", description := some "Vague link text",
               fix := some c1Fix, selector := some "a", html_snippet := some "<a>x</a>" }

/-- A state entering the fixer with only that semantic issue. -/
def c1PreState : AuditState := { semantic_issues := some [c1Issue] }

/-- Witness for C1_theorem: the single issue of the counterexample run is
in the report, and the theorem classifies it (it lands in the skip
disjunct). -/
theorem C1_theorem_witness :
    c1Issue ∈ (fixer_node (fun _ => .error ()) c1PreState).final_report.getD [] ∧
    ((skipFixed c1Issue = true ∧
        c1Issue ∈ c1PreState.critiqued_issues.getD [] ++ c1PreState.vision_issues.getD [] ++
          c1PreState.semantic_issues.getD [] ++ c1PreState.interaction_issues.getD []) ∨
      ∃ raw, c1Issue.ai_fixed_code = some (validate_fix raw)) :=
  ⟨by decide, C1_theorem (fun _ => .error ()) c1PreState c1Issue (by decide)⟩

/-- A length-3 focus trace with distinct ids, no body entry, and one
non-interactive DIV entry. -/
def c8bad : List TabEntry := [⟨"DIV", "", "a"⟩, ⟨"A", "", "b"⟩, ⟨"BUTTON", "", "c"⟩]

/-- Claim C8 counterexample: this trace satisfies every hypothesis of the
claim (length three, no duplicate id, body focused at most once), yet the
interaction analyzer reports two issues — the non-interactive-focus rule
fires alongside the limited-keyboard-access rule. -/
theorem C8_counterexample :
    c8bad.length = 3 ∧
    ((c8bad.map TabEntry.id).filter (fun s => s ≠ "")).Nodup ∧
    (c8bad.filter (fun e => e.tag = "BODY")).length ≤ 1 ∧
    ((interaction_node { tab_log := some c8bad }).interaction_issues.getD []).map Issue.rule =
      ["non-interactive-tabindex", "limited-keyboard-access"] := by
  refine ⟨by decide, by decide, by decide, by decide⟩

/-- The duplicate-id scan reports nothing when the nonempty ids are
pairwise distinct and disjoint from the already-seen set. -/
theorem dupScan_nil : ∀ (log : List TabEntry) (seen : List String),
    ((log.map TabEntry.id).filter (fun s => s ≠ "")).Nodup →
    (∀ e ∈ log, e.id ≠ "" → e.id ∉ seen) →
    dupScan seen log = [] := by
  intro log
  induction log with
  | nil =>
    intro seen _ _
    rfl
  | cons e es ih =>
    intro seen hnodup hseen
    by_cases hid : e.id = ""
    · rw [dupScan, if_neg (by simp [hid])]
      · apply ih seen
        · simpa [hid] using hnodup
        · intro e2 he2 hne
          exact hseen e2 (List.mem_cons_of_mem _ he2) hne
    · have hnotin : e.id ∉ seen := hseen e (List.mem_cons_self _ _) hid
      have hfilter :
          ((e :: es).map TabEntry.id).filter (fun s => s ≠ "") =
            e.id :: (es.map TabEntry.id).filter (fun s => s ≠ "") := by
        simp [hid]
      rw [hfilter] at hnodup
      have hnotf : e.id ∉ (es.map TabEntry.id).filter (fun s => s ≠ "") :=
        (List.nodup_cons.mp hnodup).1
      rw [dupScan, if_pos hid, if_neg (by simpa using hnotin)]
      apply ih (e.id :: seen)
      · exact (List.nodup_cons.mp hnodup).2
      · intro e2 he2 hne
        simp only [List.mem_cons]
        rintro (heq | hmem)
        · apply hnotf
          rw [← heq]
          exact List.mem_filter.mpr ⟨List.mem_map.mpr ⟨e2, he2, rfl⟩, by simpa using hne⟩
        · exact hseen e2 (List.mem_cons_of_mem _ he2) hne hmem

/-- Claim C8 (amended): a focus trace of length three with no duplicate
nonempty id, the body focused at most once, and — as the counterexample
forces — no entry whose tag is one of the non-interactive tags, yields
exactly one interaction issue, the limited-keyboard-access rule. -/
theorem C8_theorem (st : AuditState) (log : List TabEntry)
    (hlog : st.tab_log = some log)
    (hlen : log.length = 3)
    (hnodup : ((log.map TabEntry.id).filter (fun s => s ≠ "")).Nodup)
    (hbody : (log.filter (fun e => e.tag = "BODY")).length ≤ 1)
    (htags : ∀ e ∈ log, nonInteractiveTags.contains e.tag = false) :
    (interaction_node st).interaction_issues = some [limitedIssue 3] ∧
    (limitedIssue 3).rule = "limited-keyboard-access" := by
  refine ⟨?_, rfl⟩
  have hne : log.isEmpty = false := by
    cases log <;> simp_all
  simp only [interaction_node, hlog, Option.getD_some, hne, Bool.false_eq_true, if_false]
  have hrest : interactionIssues log = [limitedIssue 3] := by
    unfold interactionIssues
    have h1 : ¬ (1 < (log.filter (fun e => e.tag = "BODY")).length) := by omega
    have h2 : log.filter (fun e => nonInteractiveTags.contains e.tag) = [] := by
      rw [List.filter_eq_nil_iff]
      intro e he
      have := htags e he
      simp_all
    have h3 : log.length < 5 := by omega
    have h4 : dupScan [] log = [] :=
      dupScan_nil log [] hnodup (by intro e _ _; exact List.not_mem_nil _)
    rw [if_neg h1, h2, if_pos h3, h4, hlen]
    simp
  rw [hrest]

/-- A clean length-3 trace: all interactive tags, distinct ids. -/
def c8good : List TabEntry := [⟨"A", "", "x"⟩, ⟨"BUTTON", "", "y"⟩, ⟨"INPUT", "", "z"⟩]

/-- Witness for C8_theorem at the clean concrete trace. -/
theorem C8_theorem_witness :
    ({ tab_log := some c8good } : AuditState).tab_log = some c8good ∧
    c8good.length = 3 ∧
    ((c8good.map TabEntry.id).filter (fun s => s ≠ "")).Nodup ∧
    (c8good.filter (fun e => e.tag = "BODY")).length ≤ 1 ∧
    (∀ e ∈ c8good, nonInteractiveTags.contains e.tag = false) ∧
    (interaction_node { tab_log := some c8good }).interaction_issues = some [limitedIssue 3] :=
  ⟨rfl, by decide, by decide, by decide, by decide,
    (C8_theorem { tab_log := some c8good } c8good rfl (by decide) (by decide)
      (by decide) (by decide)).1⟩

/-- Claim C2 (confirmed): when the input guard rejects the url, the final
state of the whole chain carries an empty issue list in every category and
an empty final report, with the guard error propagated unchanged — for
every scan result and every oracle behaviour.  (The downstream stages do
not all check the error key; they stay silent because the evidence keys
they read were never populated.) -/
theorem C2_theorem (scanRes : Except String ScanSuccess) (useSlm : Bool)
    (tier2 : Except Unit Json) (semOrc : Except Unit (List SemItem))
    (visOrc : Except Unit (List VisItem)) (fixOrc : Issue → Except Unit FixResp)
    (url : String) (herr : (validate_input url).error.isSome) :
    (run_audit_graph scanRes useSlm tier2 semOrc visOrc fixOrc url).critiqued_issues = some [] ∧
    (run_audit_graph scanRes useSlm tier2 semOrc visOrc fixOrc url).semantic_issues = some [] ∧
    (run_audit_graph scanRes useSlm tier2 semOrc visOrc fixOrc url).interaction_issues = some [] ∧
    (run_audit_graph scanRes useSlm tier2 semOrc visOrc fixOrc url).vision_issues = some [] ∧
    (run_audit_graph scanRes useSlm tier2 semOrc visOrc fixOrc url).final_report = some [] ∧
    (run_audit_graph scanRes useSlm tier2 semOrc visOrc fixOrc url).error =
      (validate_input url).error := by
  obtain ⟨m, hm⟩ := Option.isSome_iff_exists.mp herr
  simp [run_audit_graph, input_guard_node, scanner_node, critic_node, semantic_node,
    interaction_node, vision_analyzer_node, fixer_node, fast_critique, heuristic_filter,
    heuristicGo, critique_issues, fixerLoop, pyTruthy, hm]

/-- Witness for C2_theorem: the blocklisted host of the spec scenario,
with a successful scan and assorted oracle behaviours. -/
theorem C2_theorem_witness :
    (validate_input "http://malicious-site.com/x").error.isSome ∧
    ((run_audit_graph (.ok {}) true (.ok (.obj [])) (.ok []) (.error ())
        (fun _ => .error ()) "http://malicious-site.com/x").critiqued_issues = some [] ∧
      (run_audit_graph (.ok {}) true (.ok (.obj [])) (.ok []) (.error ())
        (fun _ => .error ()) "http://malicious-site.com/x").semantic_issues = some [] ∧
      (run_audit_graph (.ok {}) true (.ok (.obj [])) (.ok []) (.error ())
        (fun _ => .error ()) "http://malicious-site.com/x").interaction_issues = some [] ∧
      (run_audit_graph (.ok {}) true (.ok (.obj [])) (.ok []) (.error ())
        (fun _ => .error ()) "http://malicious-site.com/x").vision_issues = some [] ∧
      (run_audit_graph (.ok {}) true (.ok (.obj [])) (.ok []) (.error ())
        (fun _ => .error ()) "http://malicious-site.com/x").final_report = some [] ∧
      (run_audit_graph (.ok {}) true (.ok (.obj [])) (.ok []) (.error ())
        (fun _ => .error ()) "http://malicious-site.com/x").error =
        (validate_input "http://malicious-site.com/x").error) :=
  ⟨by decide,
    C2_theorem (.ok {}) true (.ok (.obj [])) (.ok []) (.error ())
      (fun _ => .error ()) "http://malicious-site.com/x" (by decide)⟩

/-- The occurrence mass of a rule in a finding list: the sum of the
affected-node counts, defaulting to one, over the findings of that rule. -/
def sumOcc (r : String) (issues : List CFinding) : Nat :=
  ((issues.filter (fun f => f.rule = r)).map (fun f => f.nodes_affected.getD 1)).sum

/-- The largest per-finding evidence-node count of a finding list. -/
def maxSnip (issues : List CFinding) : Nat :=
  (issues.map (fun f => f.specific_nodes.length)).foldr max 0

/-- The occurrence total a rule holds in an aggregate list. -/
def accTot (r : String) (gs : List GroupedIssue) : Nat :=
  ((gs.filter (fun g => g.rule = r)).map (fun g => g.total_occurrences)).sum

/-- The rule keys of an aggregate list. -/
def rulesOf (gs : List GroupedIssue) : List String := gs.map GroupedIssue.rule

/-- The aggregate total of a rule over a cons. -/
theorem accTot_cons (r : String) (g : GroupedIssue) (gs : List GroupedIssue) :
    accTot r (g :: gs) =
      (if g.rule = r then g.total_occurrences else 0) + accTot r gs := by
  simp only [accTot, List.filter_cons, decide_eq_true_eq]
  split_ifs with h <;> simp

/-- The occurrence mass of a rule over a cons. -/
theorem sumOcc_cons (r : String) (f : CFinding) (fs : List CFinding) :
    sumOcc r (f :: fs) =
      (if f.rule = r then f.nodes_affected.getD 1 else 0) + sumOcc r fs := by
  simp only [sumOcc, List.filter_cons, decide_eq_true_eq]
  split_ifs with h <;> simp

/-- Bumping an aggregate keeps its rule key. -/
theorem groupBump_rule (f : CFinding) (g : GroupedIssue) :
    (groupBump f g).rule = g.rule := rfl

/-- Bumping an aggregate adds the affected-node count. -/
theorem groupBump_total (f : CFinding) (g : GroupedIssue) :
    (groupBump f g).total_occurrences =
      g.total_occurrences + f.nodes_affected.getD 1 := rfl

/-- Folding one finding moves exactly its occurrence count onto its rule. -/
theorem accTot_groupAdd (f : CFinding) (r : String) :
    ∀ acc, accTot r (groupAdd f acc) =
      accTot r acc + (if f.rule = r then f.nodes_affected.getD 1 else 0) := by
  intro acc
  induction acc with
  | nil =>
    simp only [groupAdd, accTot_cons, groupBump_rule, groupBump_total, groupBase]
    simp only [accTot, List.filter_nil, List.map_nil, List.sum_nil]
    split_ifs <;> omega
  | cons g gs ih =>
    by_cases hg : g.rule = f.rule
    · simp only [groupAdd, if_pos hg, accTot_cons, groupBump_rule, groupBump_total]
      by_cases hr : f.rule = r
      · have hgr : g.rule = r := by rw [hg, hr]
        rw [if_pos hgr, if_pos hgr, if_pos hr]
        omega
      · have hgr : ¬ g.rule = r := by rw [hg]; exact hr
        rw [if_neg hgr, if_neg hgr, if_neg hr]
        omega
    · simp only [groupAdd, if_neg hg, accTot_cons, ih]
      omega

/-- Folding a finding list moves exactly its occurrence mass per rule. -/
theorem accTot_critique (r : String) :
    ∀ (issues : List CFinding) (acc : List GroupedIssue),
      accTot r (issues.foldl (fun a f => groupAdd f a) acc) =
        accTot r acc + sumOcc r issues := by
  intro issues
  induction issues with
  | nil =>
    intro acc
    simp [sumOcc]
  | cons f fs ih =>
    intro acc
    simp only [List.foldl_cons, ih, accTot_groupAdd, sumOcc_cons]
    omega

/-- Folding one finding either reuses an existing rule key or appends a
new one. -/
theorem rulesOf_groupAdd (f : CFinding) :
    ∀ acc, rulesOf (groupAdd f acc) =
      if f.rule ∈ rulesOf acc then rulesOf acc else rulesOf acc ++ [f.rule] := by
  intro acc
  induction acc with
  | nil => simp [groupAdd, rulesOf, groupBump, groupBase]
  | cons g gs ih =>
    by_cases hg : g.rule = f.rule
    · have hmem : f.rule ∈ rulesOf (g :: gs) := by
        simp only [rulesOf, List.map_cons, List.mem_cons]
        exact Or.inl hg.symm
      rw [if_pos hmem]
      simp only [groupAdd, if_pos hg]
      show (groupBump f g).rule :: rulesOf gs = rulesOf (g :: gs)
      rw [groupBump_rule]
      rfl
    · simp only [groupAdd, if_neg hg]
      show g.rule :: rulesOf (groupAdd f gs) = _
      rw [ih]
      by_cases hm : f.rule ∈ rulesOf gs
      · rw [if_pos hm]
        have hmem : f.rule ∈ rulesOf (g :: gs) := by
          simp only [rulesOf, List.map_cons, List.mem_cons]
          exact Or.inr hm
        rw [if_pos hmem]
        rfl
      · rw [if_neg hm]
        have hnm : f.rule ∉ rulesOf (g :: gs) := by
          simp only [rulesOf, List.map_cons, List.mem_cons]
          rintro (h1 | h2)
          · exact hg h1.symm
          · exact hm h2
        rw [if_neg hnm]
        rfl

/-- Folding preserves distinctness of the rule keys. -/
theorem nodup_groupAdd (f : CFinding) (acc : List GroupedIssue)
    (h : (rulesOf acc).Nodup) : (rulesOf (groupAdd f acc)).Nodup := by
  rw [rulesOf_groupAdd]
  by_cases hm : f.rule ∈ rulesOf acc
  · simpa [hm] using h
  · simp only [hm, Bool.false_eq_true, if_neg, reduceIte]
    simp [List.nodup_append, h, hm]

/-- The rule keys of the grouped output are distinct. -/
theorem nodup_critique :
    ∀ (issues : List CFinding) (acc : List GroupedIssue),
      (rulesOf acc).Nodup →
      (rulesOf (issues.foldl (fun a f => groupAdd f a) acc)).Nodup := by
  intro issues
  induction issues with
  | nil =>
    intro acc h
    simpa using h
  | cons f fs ih =>
    intro acc h
    exact ih (groupAdd f acc) (nodup_groupAdd f acc h)

/-- In an aggregate list with distinct rule keys, filtering on the rule of
a member yields exactly that member. -/
theorem filter_of_nodup :
    ∀ (gs : List GroupedIssue), (rulesOf gs).Nodup → ∀ g ∈ gs,
      gs.filter (fun x => x.rule = g.rule) = [g] := by
  intro gs
  induction gs with
  | nil =>
    intro _ g hg
    exact absurd hg (List.not_mem_nil g)
  | cons h hs ih =>
    intro hnodup g hg
    have hn1 : h.rule ∉ rulesOf hs := by
      have := (List.nodup_cons.mp hnodup).1
      simpa [rulesOf] using this
    have hn2 : (rulesOf hs).Nodup := (List.nodup_cons.mp hnodup).2
    rcases List.mem_cons.mp hg with rfl | hmem
    · have hrest : hs.filter (fun x => x.rule = g.rule) = [] := by
        rw [List.filter_eq_nil_iff]
        intro x hx
        simp only [decide_eq_true_eq]
        intro hx2
        exact hn1 (hx2 ▸ List.mem_map.mpr ⟨x, hx, rfl⟩)
      simp [List.filter_cons, hrest]
    · have hne : ¬ (h.rule = g.rule) := by
        intro heq
        exact hn1 (heq ▸ List.mem_map.mpr ⟨g, hmem, rfl⟩)
      have hstep : (h :: hs).filter (fun x => x.rule = g.rule) =
          hs.filter (fun x => x.rule = g.rule) := by
        simp [List.filter_cons, hne]
      rw [hstep]
      exact ih hn2 g hmem

/-- Folding one finding keeps every snippet list within four plus the
largest per-finding node count. -/
theorem snip_groupAdd (f : CFinding) (M : Nat) (hf : f.specific_nodes.length ≤ M) :
    ∀ acc, (∀ g ∈ acc, g.code_snippets.length ≤ 4 + M) →
      ∀ g ∈ groupAdd f acc, g.code_snippets.length ≤ 4 + M := by
  intro acc
  induction acc with
  | nil =>
    intro _ g hg
    simp only [groupAdd, List.mem_singleton] at hg
    subst hg
    show (if ([] : List ScanNode).length < 5 then [] ++ f.specific_nodes
        else ([] : List ScanNode)).length <= 4 + M
    simp only [List.length_nil, Nat.zero_lt_succ, if_pos, List.nil_append]
    omega
  | cons h hs ih =>
    intro hacc g hg
    simp only [groupAdd] at hg
    by_cases hr : h.rule = f.rule
    · rw [if_pos hr] at hg
      rcases List.mem_cons.mp hg with rfl | hmem
      · simp only [groupBump]
        split_ifs with hlen
        · have := hacc h (List.mem_cons_self _ _)
          simp only [List.length_append]
          omega
        · exact hacc h (List.mem_cons_self _ _)
      · exact hacc g (List.mem_cons_of_mem _ hmem)
    · rw [if_neg hr] at hg
      rcases List.mem_cons.mp hg with rfl | hmem
      · exact hacc g (List.mem_cons_self _ _)
      · exact ih (fun x hx => hacc x (List.mem_cons_of_mem _ hx)) g hmem

/-- Folding a finding list keeps every snippet list within four plus the
largest per-finding node count. -/
theorem snip_critique (M : Nat) :
    ∀ (issues : List CFinding) (acc : List GroupedIssue),
      (∀ f ∈ issues, f.specific_nodes.length ≤ M) →
      (∀ g ∈ acc, g.code_snippets.length ≤ 4 + M) →
      ∀ g ∈ issues.foldl (fun a f => groupAdd f a) acc, g.code_snippets.length ≤ 4 + M := by
  intro issues
  induction issues with
  | nil =>
    intro acc _ hacc g hg
    exact hacc g hg
  | cons f fs ih =>
    intro acc hiss hacc g hg
    exact ih (groupAdd f acc)
      (fun x hx => hiss x (List.mem_cons_of_mem _ hx))
      (snip_groupAdd f M (hiss f (List.mem_cons_self _ _)) acc hacc) g hg

/-- Every finding is within the largest per-finding node count. -/
theorem le_maxSnip : ∀ (issues : List CFinding), ∀ f ∈ issues,
    f.specific_nodes.length ≤ maxSnip issues := by
  intro issues
  induction issues with
  | nil =>
    intro f hf
    exact absurd hf (List.not_mem_nil f)
  | cons g gs ih =>
    intro f hf
    rcases List.mem_cons.mp hf with rfl | hmem
    · simp only [maxSnip, List.map_cons, List.foldr_cons]
      exact Nat.le_max_left _ _
    · simp only [maxSnip, List.map_cons, List.foldr_cons]
      exact Nat.le_trans (ih f hmem) (Nat.le_max_right _ _)

/-- A finding whose evidence list holds six nodes. -/
def c5f : CFinding :=
  ⟨"image-alt", "Images must have alternate text", "1.1.1", "HIGH", none,
   [⟨"<img a>", "a"⟩, ⟨"<img b>", "b"⟩, ⟨"<img c>", "c"⟩,
    ⟨"<img d>", "d"⟩, ⟨"<img e>", "e"⟩, ⟨"<img f>", "f"⟩]⟩

/-- Claim C5 counterexample: the cap check runs before the extension, so
one finding with six evidence nodes produces a grouped issue carrying all
six pairs — the evidence list is not capped at five. -/
theorem C5_counterexample :
    (critique_issues [c5f]).map (fun g => g.code_snippets.length) = [6] ∧
    (critique_issues [c5f]).any (fun g => 5 < g.code_snippets.length) = true := by
  refine ⟨by decide, by decide⟩

/-- Claim C5 (amended): every grouped issue counts exactly the occurrence
mass of its rule (the affected-node counts, defaulting to one); the
evidence list is extended only while it holds fewer than five pairs, so
its final length is bounded by four plus the largest single finding
evidence list, not by five as claimed — one oversized finding overshoots
the cap, as the counterexample shows. -/
theorem C5_theorem (issues : List CFinding) :
    ∀ g ∈ critique_issues issues,
      g.total_occurrences = sumOcc g.rule issues ∧
      g.code_snippets.length ≤ 4 + maxSnip issues := by
  intro g hg
  have hnodup : (rulesOf (critique_issues issues)).Nodup :=
    nodup_critique issues [] (by simp [rulesOf])
  constructor
  · have h1 : accTot g.rule (critique_issues issues) = sumOcc g.rule issues := by
      have := accTot_critique g.rule issues []
      simpa [accTot, critique_issues] using this
    have h2 : (critique_issues issues).filter (fun x => x.rule = g.rule) = [g] :=
      filter_of_nodup (critique_issues issues) hnodup g hg
    rw [← h1]
    simp [accTot, h2]
  · exact snip_critique (maxSnip issues) issues []
      (fun f hf => le_maxSnip issues f hf) (by simp) g hg

/-- Two findings of one rule, one carrying an explicit affected-node
count. -/
def c5list : List CFinding :=
  [⟨"image-alt", "Images must have alternate text", "1.1.1", "HIGH", some 2, [⟨"<img>", "img"⟩]⟩,
   ⟨"image-alt", "Images must have alternate text", "1.1.1", "HIGH", none, [⟨"<img2>", "img2"⟩]⟩]

/-- The aggregate the grouper builds from that list. -/
def c5g : GroupedIssue :=
  ⟨"image-alt", "Images must have alternate text", "1.1.1", "HIGH", 3,
   [⟨"<img>", "img"⟩, ⟨"<img2>", "img2"⟩]⟩

/-- Witness for C5_theorem at the concrete two-finding list. -/
theorem C5_theorem_witness :
    c5g ∈ critique_issues c5list ∧
    (c5g.total_occurrences = sumOcc c5g.rule c5list ∧
      c5g.code_snippets.length ≤ 4 + maxSnip c5list) :=
  ⟨by decide, C5_theorem c5list c5g (by decide)⟩

/-- Claim C4 counterexample: four concrete violations of the unconditional
invariance.  Inserting a well-formed script block next to an unclosed
script-like opener lets the non-greedy removal swallow the visible text
between them; a single-quoted data attribute is not matched by the
double-quote-only data pattern; a double-quoted data attribute inserted
next to existing whitespace removes that whitespace along with itself; and
a data attribute inserted into text that rejoins to a script opener after
its removal changes what the earlier script pass sees. -/
theorem C4_counterexample :
    compute_dom_hash "<scriptx>hello<script>s</script>" ≠
      compute_dom_hash "<scriptx>hello" ∧
    compute_dom_hash "<div data-x=\x271\x27>hi</div>" ≠
      compute_dom_hash "<div>hi</div>" ∧
    compute_dom_hash "a  data-x=\"1\"b" ≠ compute_dom_hash "a b" ∧
    compute_dom_hash "a<scr data-x=\"1\"ipt>s</script>b" ≠
      compute_dom_hash "a<script>s</script>b" := by
  refine ⟨by decide, by decide, by decide, by decide⟩

/-- Lower-casing cannot produce an angle bracket from another character. -/
theorem lcChar_ne_lt {c : Char} (h : c ≠ '<') : lcChar c ≠ '<' := by
  intro hc
  apply h
  unfold lcChar Char.toLower at hc
  by_cases h65 : c.toNat ≥ 65 ∧ c.toNat ≤ 90
  · rw [if_pos h65] at hc
    have hv : (c.toNat + 32).isValidChar := Or.inl (by omega)
    have h2 : (Char.ofNat (c.toNat + 32)).toNat = 60 := by rw [hc]; rfl
    unfold Char.ofNat at h2
    rw [dif_pos hv] at h2
    have h3 : c.toNat + 32 = 60 := h2
    omega
  · rw [if_neg h65] at hc
    exact hc

/-- A case-insensitive literal match fails when the head disagrees. -/
theorem matchCI_cons_ne {p c : Char} (ps cs : List Char) (h : lcChar c ≠ p) :
    matchCI (p :: ps) (c :: cs) = none := by
  simp [matchCI, h]

/-- Lower-casing a space is a space. -/
theorem lcSpace : lcChar ' ' = ' ' := by decide

/-- A successful case-sensitive match extends along an appended tail. -/
theorem matchCS_extend {p x t : List Char} (y : List Char)
    (h : matchCS p x = some t) : matchCS p (x ++ y) = some (t ++ y) := by
  induction p generalizing x t with
  | nil =>
    simp only [matchCS] at h
    injection h with h
    subst h
    rfl
  | cons q ps ih =>
    cases x with
    | nil => simp [matchCS] at h
    | cons c cs =>
      rw [List.cons_append]
      simp only [matchCS] at h ⊢
      split_ifs at h ⊢ with hc
      exact ih h

/-- A successful case-insensitive match extends along an appended tail. -/
theorem matchCI_extend {p x t : List Char} (y : List Char)
    (h : matchCI p x = some t) : matchCI p (x ++ y) = some (t ++ y) := by
  induction p generalizing x t with
  | nil =>
    simp only [matchCI] at h
    injection h with h
    subst h
    rfl
  | cons q ps ih =>
    cases x with
    | nil => simp [matchCI] at h
    | cons c cs =>
      rw [List.cons_append]
      simp only [matchCI] at h ⊢
      split_ifs at h ⊢ with hc
      exact ih h

/-- A case-sensitive match over an append either matches inside the prefix
alone, or a nonempty initial piece of the pattern is consumed by the
prefix and the remaining pattern matches at the head of the suffix. -/
theorem matchCS_split :
    ∀ (p x r t : List Char), x ≠ [] → matchCS p (x ++ r) = some t →
      (∃ t2, matchCS p x = some t2) ∨
      (∃ p1 q p2, p = p1 ++ (q :: p2) ∧ p1 ≠ [] ∧ matchCS (q :: p2) r = some t) := by
  intro p
  induction p with
  | nil =>
    intro x r t _ _
    exact Or.inl ⟨x, by simp [matchCS]⟩
  | cons q ps ih =>
    intro x r t hx h
    cases x with
    | nil => exact absurd rfl hx
    | cons c cs =>
      rw [List.cons_append] at h
      simp only [matchCS] at h
      split_ifs at h with hc
      · cases cs with
        | nil =>
          cases ps with
          | nil =>
            refine Or.inl ⟨[], ?_⟩
            simp [matchCS, hc]
          | cons q2 ps2 =>
            refine Or.inr ⟨[q], q2, ps2, rfl, by simp, ?_⟩
            simpa using h
        | cons c2 cs2 =>
          rcases ih (c2 :: cs2) r t (by simp) h with ⟨t2, h2⟩ | ⟨p1, q1, p2, hpeq, hp1, hm⟩
          · refine Or.inl ⟨t2, ?_⟩
            simp [matchCS, hc, h2]
          · refine Or.inr ⟨q :: p1, q1, p2, ?_, by simp, hm⟩
            rw [hpeq, List.cons_append]

/-- A case-insensitive match over an append either matches inside the
prefix alone, or a nonempty initial piece of the pattern is consumed by
the prefix and the remaining pattern matches at the head of the suffix. -/
theorem matchCI_split :
    ∀ (p x r t : List Char), x ≠ [] → matchCI p (x ++ r) = some t →
      (∃ t2, matchCI p x = some t2) ∨
      (∃ p1 q p2, p = p1 ++ (q :: p2) ∧ p1 ≠ [] ∧ matchCI (q :: p2) r = some t) := by
  intro p
  induction p with
  | nil =>
    intro x r t _ _
    exact Or.inl ⟨x, by simp [matchCI]⟩
  | cons q ps ih =>
    intro x r t hx h
    cases x with
    | nil => exact absurd rfl hx
    | cons c cs =>
      rw [List.cons_append] at h
      simp only [matchCI] at h
      split_ifs at h with hc
      · cases cs with
        | nil =>
          cases ps with
          | nil =>
            refine Or.inl ⟨[], ?_⟩
            simp [matchCI, hc]
          | cons q2 ps2 =>
            refine Or.inr ⟨[q], q2, ps2, rfl, by simp, ?_⟩
            simpa using h
        | cons c2 cs2 =>
          rcases ih (c2 :: cs2) r t (by simp) h with ⟨t2, h2⟩ | ⟨p1, q1, p2, hpeq, hp1, hm⟩
          · refine Or.inl ⟨t2, ?_⟩
            simp [matchCI, hc, h2]
          · refine Or.inr ⟨q :: p1, q1, p2, ?_, by simp, hm⟩
            rw [hpeq, List.cons_append]

/-- When a nonempty initial piece of a pattern is split off, the head of
the remaining piece occurs in the tail of the pattern. -/
theorem head_in_tail {p1 p2 rest : List Char} {q x : Char}
    (he : p1 ++ (q :: p2) = x :: rest) (hne : p1 ≠ []) : q ∈ rest := by
  cases p1 with
  | nil => exact absurd rfl hne
  | cons y ys =>
    rw [List.cons_append] at he
    injection he with h1 h2
    rw [← h2]
    exact List.mem_append.mpr (Or.inr (List.mem_cons_self _ _))

/-- A case-sensitive match at the head makes the substring test true. -/
theorem containsL_head {p t : List Char} (h : (matchCS p t).isSome = true) :
    containsL p t = true := by
  cases t with
  | nil => simpa [containsL] using h
  | cons c cs => simp [containsL, h]

/-- The substring test is preserved by prepending text. -/
theorem containsL_spread (p t : List Char) (h : containsL p t = true) :
    ∀ u, containsL p (u ++ t) = true := by
  intro u
  induction u with
  | nil => simpa using h
  | cons c cs ih => simp [containsL, ih]

/-- A match at the head of the suffix makes the whole substring test
true. -/
theorem containsL_found (p u t : List Char) (h : (matchCS p t).isSome = true) :
    containsL p (u ++ t) = true :=
  containsL_spread p t (containsL_head h) u

/-- A failing substring test descends to any suffix at an append. -/
theorem containsL_mono {p t : List Char} (u : List Char)
    (h : containsL p (u ++ t) = false) : containsL p t = false := by
  cases hc : containsL p t
  · rfl
  · rw [containsL_spread p t hc u] at h
    exact Bool.noConfusion h

/-- A failing substring test descends to the tail. -/
theorem containsL_tail {p : List Char} {c : Char} {cs : List Char}
    (h : containsL p (c :: cs) = false) : containsL p cs = false := by
  cases hx : containsL p cs
  · rfl
  · exfalso
    rw [containsL, hx] at h
    simp at h

/-- A case-insensitive match at the head makes the occurrence test true. -/
theorem containsCI_head {p t : List Char} (h : (matchCI p t).isSome = true) :
    containsCI p t = true := by
  cases t with
  | nil => simpa [containsCI] using h
  | cons c cs => simp [containsCI, h]

/-- The occurrence test is preserved by prepending text. -/
theorem containsCI_spread (p t : List Char) (h : containsCI p t = true) :
    ∀ u, containsCI p (u ++ t) = true := by
  intro u
  induction u with
  | nil => simpa using h
  | cons c cs ih => simp [containsCI, ih]

/-- A match at the head of the suffix makes the whole occurrence test
true. -/
theorem containsCI_found (p u t : List Char) (h : (matchCI p t).isSome = true) :
    containsCI p (u ++ t) = true :=
  containsCI_spread p t (containsCI_head h) u

/-- A failing occurrence test descends to any suffix at an append. -/
theorem containsCI_mono {p t : List Char} (u : List Char)
    (h : containsCI p (u ++ t) = false) : containsCI p t = false := by
  cases hc : containsCI p t
  · rfl
  · rw [containsCI_spread p t hc u] at h
    exact Bool.noConfusion h

/-- A failing occurrence test descends to the tail. -/
theorem containsCI_tail {p : List Char} {c : Char} {cs : List Char}
    (h : containsCI p (c :: cs) = false) : containsCI p cs = false := by
  cases hx : containsCI p cs
  · rfl
  · exfalso
    rw [containsCI, hx] at h
    simp at h

/-- A substitution pass whose step fails at every suffix position is the
identity. -/
theorem scanSub_id_of_none (step : List Char → Option (List Char × List Char)) :
    ∀ (s : List Char) (f : Nat),
      (∀ u v, s = u ++ v → v ≠ [] → step v = none) →
      scanSub step f s = s := by
  intro s
  induction s with
  | nil =>
    intro f _
    cases f <;> rfl
  | cons c cs ih =>
    intro f hs
    cases f with
    | zero => rfl
    | succ f =>
      have h0 : step (c :: cs) = none := hs [] (c :: cs) rfl (by simp)
      have hrec : scanSub step f cs = cs := by
        apply ih
        intro u v huv hv
        exact hs (c :: u) v (by rw [huv]; rfl) hv
      simp only [scanSub, h0, hrec]

/-- A tag-removal step succeeds only where the opening tag pattern
matches. -/
theorem stepTagRemove_match {tag s : List Char} {r : List Char × List Char}
    (h : stepTagRemove tag s = some r) : (matchCI ('<' :: tag) s).isSome = true := by
  unfold stepTagRemove at h
  cases hm : matchCI ('<' :: tag) s with
  | none => simp [hm] at h
  | some t => simp [hm]

/-- A comment-removal step succeeds only where the comment opener
matches. -/
theorem stepComment_match {s : List Char} {r : List Char × List Char}
    (h : stepComment s = some r) : (matchCI ('<' :: "!--".data) s).isSome = true := by
  have he : matchCI ('<' :: "!--".data) s = matchCI "<!--".data s := rfl
  rw [he]
  unfold stepComment at h
  cases hm : matchCI "<!--".data s with
  | none => simp [hm] at h
  | some t => simp [hm]

/-- A data-attribute step succeeds only where, after the whitespace run,
the literal data- matches. -/
theorem stepDataAttr_match {s : List Char} {r : List Char × List Char}
    (h : stepDataAttr s = some r) :
    (matchCS "data-".data (s.dropWhile isPySpace)).isSome = true := by
  unfold stepDataAttr at h
  cases hm : matchCS "data-".data (s.dropWhile isPySpace) with
  | none =>
    rw [hm] at h
    simp at h
  | some t => simp [hm]

/-- A pass whose step requires an opening pattern starting with an angle
bracket is the identity on text free of that pattern. -/
theorem scanSub_pat_id (step : List Char → Option (List Char × List Char))
    (pt : List Char)
    (hx : ∀ s r, step s = some r → (matchCI ('<' :: pt) s).isSome = true) :
    ∀ (s : List Char) (f : Nat), containsCI ('<' :: pt) s = false →
      scanSub step f s = s := by
  intro s f hc
  apply scanSub_id_of_none
  intro u v huv hv
  cases hsv : step v with
  | none => rfl
  | some r =>
    exfalso
    have hm := hx v r hsv
    have ht : containsCI ('<' :: pt) s = true := by
      rw [huv]
      exact containsCI_found _ u v hm
    rw [hc] at ht
    exact Bool.noConfusion ht

/-- The data-attribute pass is the identity on text free of the literal
data-. -/
theorem scanSub_data_id :
    ∀ (s : List Char) (f : Nat), containsL "data-".data s = false →
      scanSub stepDataAttr f s = s := by
  intro s f hc
  apply scanSub_id_of_none
  intro u v huv hv
  cases hsv : stepDataAttr v with
  | none => rfl
  | some r =>
    exfalso
    have hm := stepDataAttr_match hsv
    have hsplit : v.takeWhile isPySpace ++ v.dropWhile isPySpace = v := by
      simp
    have ht : containsL "data-".data s = true := by
      rw [huv, ← hsplit, ← List.append_assoc]
      exact containsL_found _ _ _ hm
    rw [hc] at ht
    exact Bool.noConfusion ht

/-- A pass looking for an opening pattern that starts with an angle
bracket and continues without spaces is the identity when a space-headed,
bracket-free fragment is inserted into pattern-free text. -/
theorem scanSub_pat_id_ins (step : List Char → Option (List Char × List Char))
    (pt : List Char)
    (hx : ∀ s r, step s = some r → (matchCI ('<' :: pt) s).isSome = true)
    (hsp : ∀ ch ∈ pt, ch ≠ ' ')
    (a mt b : List Char)
    (hmt : ∀ ch ∈ mt, ch ≠ '<')
    (hab : containsCI ('<' :: pt) (a ++ b) = false) :
    ∀ f, scanSub step f (a ++ ((' ' :: mt) ++ b)) = a ++ ((' ' :: mt) ++ b) := by
  intro f
  apply scanSub_id_of_none
  intro u v huv hv
  cases hsv : step v with
  | none => rfl
  | some r =>
    exfalso
    obtain ⟨t, ht⟩ := Option.isSome_iff_exists.mp (hx v r hsv)
    rcases List.append_eq_append_iff.mp huv.symm with ⟨w, hw1, hw2⟩ | ⟨w, hw1, hw2⟩
    · cases w with
      | nil =>
        rw [hw2] at ht
        rw [List.nil_append, List.cons_append] at ht
        rw [matchCI_cons_ne pt (mt ++ b) (by rw [lcSpace]; decide)] at ht
        exact Option.noConfusion ht
      | cons wc wcs =>
        rw [hw2] at ht
        rcases matchCI_split _ (wc :: wcs) _ t (by simp) ht with
          ⟨t2, h2⟩ | ⟨p1, q1, p2, hpeq, hp1, hm2⟩
        · have hext := matchCI_extend b h2
          have hfull : containsCI ('<' :: pt) (a ++ b) = true := by
            rw [hw1, List.append_assoc]
            exact containsCI_found _ u _ (by rw [hext]; rfl)
          rw [hab] at hfull
          exact Bool.noConfusion hfull
        · have hhm : q1 ∈ pt := head_in_tail hpeq.symm hp1
          rw [List.cons_append] at hm2
          simp only [matchCI] at hm2
          split_ifs at hm2 with hcnd
          exact hsp q1 hhm (by rw [← hcnd, lcSpace])
    · rcases List.append_eq_append_iff.mp hw2 with ⟨z, hz1, hz2⟩ | ⟨z, hz1, hz2⟩
      · have hfull : containsCI ('<' :: pt) (a ++ b) = true := by
          rw [hz2, ← List.append_assoc]
          exact containsCI_found _ (a ++ z) v (by rw [ht]; rfl)
        rw [hab] at hfull
        exact Bool.noConfusion hfull
      · cases z with
        | nil =>
          rw [hz2, List.nil_append] at ht
          have hfull : containsCI ('<' :: pt) (a ++ b) = true :=
            containsCI_found _ a b (by rw [ht]; rfl)
          rw [hab] at hfull
          exact Bool.noConfusion hfull
        | cons zc zcs =>
          have hzc : zc ∈ ' ' :: mt := by
            rw [hz1]
            exact List.mem_append.mpr (Or.inr (List.mem_cons_self _ _))
          have hzclt : zc ≠ '<' := by
            rcases List.mem_cons.mp hzc with hsp2 | hmt2
            · rw [hsp2]; decide
            · exact hmt zc hmt2
          rw [hz2, List.cons_append] at ht
          rw [matchCI_cons_ne pt (zcs ++ b) (lcChar_ne_lt hzclt)] at ht
          exact Option.noConfusion ht

/-- The non-greedy close search lands after the first genuine closing tag:
the body contains no case-insensitive closing occurrence, so the literal
close appended after it is the first match. -/
theorem dropToClose_eq :
    ∀ (c : List Char), containsCI "</script>".data c = false → ∀ (b : List Char),
      dropToClose '<' ('/' :: "script".data ++ ['>'])
        (c ++ ("</script>".data ++ b)) = some b := by
  intro c
  induction c with
  | nil =>
    intro _ b
    rfl
  | cons ch ct ih =>
    intro hc b
    have hnone : matchCI ('<' :: ('/' :: "script".data ++ ['>']))
        (ch :: (ct ++ ("</script>".data ++ b))) = none := by
      cases hm : matchCI ('<' :: ('/' :: "script".data ++ ['>']))
          ((ch :: ct) ++ ("</script>".data ++ b)) with
      | none => exact hm
      | some t =>
        exfalso
        rcases matchCI_split _ (ch :: ct) _ t (by simp) hm with
          ⟨t2, h2⟩ | ⟨p1, q1, p2, hpeq, hp1, hm2⟩
        · have hhead : containsCI ('<' :: ('/' :: "script".data ++ ['>'])) (ch :: ct) = true :=
            containsCI_head (by rw [h2]; rfl)
          have he : containsCI "</script>".data (ch :: ct) =
              containsCI ('<' :: ('/' :: "script".data ++ ['>'])) (ch :: ct) := rfl
          rw [he, hhead] at hc
          exact Bool.noConfusion hc
        · have hhm : q1 ∈ '/' :: "script".data ++ ['>'] := head_in_tail hpeq.symm hp1
          have hhlt : q1 = '<' := by
            rw [show ("</script>".data ++ b) =
              '<' :: ("/script>".data ++ b) from rfl] at hm2
            simp only [matchCI] at hm2
            split_ifs at hm2 with hcnd
            rw [← hcnd]; decide
          have hno : ∀ x ∈ '/' :: "script".data ++ ['>'], x ≠ '<' := by decide
          exact hno q1 hhm hhlt
    show (match matchCI ('<' :: ('/' :: "script".data ++ ['>']))
        (ch :: (ct ++ ("</script>".data ++ b))) with
      | some r => some r
      | none => dropToClose '<' ('/' :: "script".data ++ ['>'])
          (ct ++ ("</script>".data ++ b))) = some b
    rw [hnone]
    exact ih (containsCI_tail hc) b

/-- The tag-removal step removes exactly a well-formed script block whose
body has no closing tag of its own. -/
theorem stepTagRemove_script (c b : List Char)
    (hc : containsCI "</script>".data c = false) :
    stepTagRemove "script".data
      ("<script>".data ++ (c ++ ("</script>".data ++ b))) = some ([], b) := by
  have hopen : matchCI ('<' :: "script".data)
      ("<script>".data ++ (c ++ ("</script>".data ++ b))) =
      some ('>' :: (c ++ ("</script>".data ++ b))) := rfl
  unfold stepTagRemove
  rw [hopen]
  show (match dropToClose '<' ('/' :: "script".data ++ ['>'])
      (c ++ ("</script>".data ++ b)) with
    | none => none
    | some rest => some ([], rest)) = some ([], b)
  rw [dropToClose_eq c hc b]

/-- The script-removal pass removes exactly an inserted well-formed block
when the surrounding markup has no script opener and the body no closing
tag. -/
theorem scanSub_script_insert (c b : List Char)
    (hc : containsCI "</script>".data c = false)
    (hb : containsCI ('<' :: "script".data) b = false) :
    ∀ (a : List Char) (f : Nat),
      containsCI ('<' :: "script".data) (a ++ b) = false →
      f ≥ (a ++ ("<script>".data ++ (c ++ ("</script>".data ++ b)))).length →
      scanSub (stepTagRemove "script".data) f
        (a ++ ("<script>".data ++ (c ++ ("</script>".data ++ b)))) = a ++ b := by
  intro a
  induction a with
  | nil =>
    intro f _ hf
    simp only [List.nil_append, List.length_append, List.length_cons] at hf ⊢
    cases f with
    | zero =>
      exfalso
      simp [String.length] at hf
    | succ f =>
      show scanSub (stepTagRemove "script".data) (f + 1)
        ('<' :: ("script>".data ++ (c ++ ("</script>".data ++ b)))) = b
      have hstep := stepTagRemove_script c b hc
      simp only [scanSub]
      rw [show ('<' :: ("script>".data ++ (c ++ ("</script>".data ++ b)))) =
        ("<script>".data ++ (c ++ ("</script>".data ++ b))) from rfl, hstep]
      simp only [List.nil_append]
      exact scanSub_pat_id _ _ (fun s r h => stepTagRemove_match h) b f hb
  | cons ch a ih =>
    intro f hab hf
    have hstep : stepTagRemove "script".data
        ((ch :: a) ++ ("<script>".data ++ (c ++ ("</script>".data ++ b)))) = none := by
      cases hm : matchCI ('<' :: "script".data)
          ((ch :: a) ++ ("<script>".data ++ (c ++ ("</script>".data ++ b)))) with
      | none =>
        unfold stepTagRemove
        rw [hm]
      | some t =>
        exfalso
        rcases matchCI_split _ (ch :: a) _ t (by simp) hm with
          ⟨t2, h2⟩ | ⟨p1, q1, p2, hpeq, hp1, hm2⟩
        · have hext := matchCI_extend b h2
          have hfull : containsCI ('<' :: "script".data) ((ch :: a) ++ b) = true :=
            containsCI_head (by rw [hext]; rfl)
          rw [hab] at hfull
          exact Bool.noConfusion hfull
        · have hhm : q1 ∈ "script".data := head_in_tail hpeq.symm hp1
          have hhlt : q1 = '<' := by
            rw [show ("<script>".data ++ (c ++ ("</script>".data ++ b))) =
              '<' :: ("script>".data ++ (c ++ ("</script>".data ++ b))) from rfl] at hm2
            simp only [matchCI] at hm2
            split_ifs at hm2 with hcnd
            rw [← hcnd]; decide
          have hno : ∀ x ∈ "script".data, x ≠ '<' := by decide
          exact hno q1 hhm hhlt
    cases f with
    | zero =>
      exfalso
      simp at hf
    | succ f =>
      show scanSub (stepTagRemove "script".data) (f + 1)
        (ch :: (a ++ ("<script>".data ++ (c ++ ("</script>".data ++ b))))) = ch :: (a ++ b)
      rw [List.cons_append] at hstep
      have hab2 : containsCI ('<' :: "script".data) (a ++ b) = false := by
        rw [List.cons_append] at hab
        exact containsCI_tail hab
      show (match stepTagRemove "script".data
          (ch :: (a ++ ("<script>".data ++ (c ++ ("</script>".data ++ b))))) with
        | some (rep, rest) => rep ++ scanSub (stepTagRemove "script".data) f rest
        | none => ch :: scanSub (stepTagRemove "script".data) f
            (a ++ ("<script>".data ++ (c ++ ("</script>".data ++ b))))) = ch :: (a ++ b)
      rw [hstep]
      rw [ih f hab2 (by rw [List.cons_append, List.length_cons] at hf; omega)]

/-- takeWhile and dropWhile over a block of satisfying characters stop
exactly at the first failing character. -/
theorem takeWhile_block {p : Char → Bool} :
    ∀ (x : List Char), (∀ ch ∈ x, p ch = true) → ∀ (y : Char) (r : List Char),
      p y = false →
      (x ++ y :: r).takeWhile p = x ∧ (x ++ y :: r).dropWhile p = y :: r := by
  intro x
  induction x with
  | nil =>
    intro _ y r hy
    constructor
    · simp [List.takeWhile_cons, hy]
    · simp [List.dropWhile_cons, hy]
  | cons c cs ih =>
    intro hx y r hy
    have hc : p c = true := hx c (List.mem_cons_self _ _)
    have hrec := ih (fun ch hch => hx ch (List.mem_cons_of_mem _ hch)) y r hy
    constructor
    · simp [List.takeWhile_cons, hc, hrec.1]
    · simp [List.dropWhile_cons, hc, hrec.2]

/-- dropWhile of a list ending in a failing character is nonempty. -/
theorem dropWhile_end_ne {p : Char → Bool} :
    ∀ (x : List Char) (c : Char), p c = false → (x ++ [c]).dropWhile p ≠ [] := by
  intro x
  induction x with
  | nil =>
    intro c hc
    simp [List.dropWhile_cons, hc]
  | cons d ds ih =>
    intro c hc
    rw [List.cons_append, List.dropWhile_cons]
    split_ifs with hd
    · exact ih c hc
    · simp

/-- dropWhile distributes over an append whose left part already reaches a
failing character. -/
theorem dropWhile_append_ne {p : Char → Bool} :
    ∀ (x : List Char), x.dropWhile p ≠ [] → ∀ (y : List Char),
      (x ++ y).dropWhile p = x.dropWhile p ++ y := by
  intro x
  induction x with
  | nil =>
    intro hx _
    exact absurd rfl hx
  | cons c cs ih =>
    intro hx y
    by_cases hc : p c = true
    · rw [List.dropWhile_cons, if_pos hc] at hx
      rw [List.cons_append, List.dropWhile_cons, List.dropWhile_cons, if_pos hc, if_pos hc]
      exact ih hx y
    · rw [List.cons_append, List.dropWhile_cons, List.dropWhile_cons, if_neg hc, if_neg hc,
        List.cons_append]

/-- The quote search passes over quote-free characters and stops at the
appended quote. -/
theorem dropToChar_through :
    ∀ (v : List Char), (∀ ch ∈ v, ch ≠ '"') → ∀ (b : List Char),
      dropToChar '"' (v ++ ('"' :: b)) = some b := by
  intro v
  induction v with
  | nil =>
    intro _ b
    simp [dropToChar]
  | cons c cs ih =>
    intro hv b
    have hc : c ≠ '"' := hv c (List.mem_cons_self _ _)
    rw [List.cons_append]
    simp only [dropToChar, if_neg hc]
    exact ih (fun x hx => hv x (List.mem_cons_of_mem _ hx)) b

/-- A data-attribute step fails at a non-whitespace head. -/
theorem stepDataAttr_nonspace {c : Char} (cs : List Char)
    (h : isPySpace c = false) : stepDataAttr (c :: cs) = none := by
  unfold stepDataAttr
  have htw : List.takeWhile isPySpace (c :: cs) = [] := by
    rw [List.takeWhile_cons, if_neg (by simp [h])]
  rw [htw]
  rfl

/-- The data-attribute step removes exactly the inserted attribute. -/
theorem stepDataAttr_ins (name val b : List Char)
    (hname : name ≠ []) (hnc : ∀ ch ∈ name, isDataNameChar ch = true)
    (hval : ∀ ch ∈ val, ch ≠ '"') :
    stepDataAttr ((' ' :: ("data-".data ++ (name ++ ('=' :: '"' :: (val ++ ['"']))))) ++ b) =
      some ([], b) := by
  have hW : ((name ++ ('=' :: '"' :: (val ++ ['"']))) ++ b)
      = name ++ ('=' :: '"' :: (val ++ ('"' :: b))) := by simp
  have hne : ¬(name.isEmpty = true) := by
    cases name with
    | nil => exact absurd rfl hname
    | cons c cs => simp
  rw [show (' ' :: ("data-".data ++ (name ++ ('=' :: '"' :: (val ++ ['"']))))) ++ b
      = ' ' :: ("data-".data ++ ((name ++ ('=' :: '"' :: (val ++ ['"']))) ++ b)) from by
    rw [List.cons_append, List.append_assoc]]
  rw [hW]
  unfold stepDataAttr
  have htk : (' ' :: ("data-".data ++
      (name ++ ('=' :: '"' :: (val ++ ('"' :: b)))))).takeWhile isPySpace = [' '] := by
    rw [List.takeWhile_cons, if_pos (by decide)]
    show ' ' :: List.takeWhile isPySpace
      ('d' :: ("ata-".data ++ (name ++ ('=' :: '"' :: (val ++ ('"' :: b)))))) = [' ']
    rw [List.takeWhile_cons, if_neg (by decide)]
  have hdr : (' ' :: ("data-".data ++
      (name ++ ('=' :: '"' :: (val ++ ('"' :: b)))))).dropWhile isPySpace =
      "data-".data ++ (name ++ ('=' :: '"' :: (val ++ ('"' :: b)))) := by
    rw [List.dropWhile_cons, if_pos (by decide)]
    show List.dropWhile isPySpace
        ('d' :: ("ata-".data ++ (name ++ ('=' :: '"' :: (val ++ ('"' :: b)))))) =
      'd' :: ("ata-".data ++ (name ++ ('=' :: '"' :: (val ++ ('"' :: b)))))
    rw [List.dropWhile_cons, if_neg (by decide)]
  rw [htk, hdr]
  rw [if_neg (show ¬(([' '] : List Char).isEmpty = true) by decide)]
  have hm5 : matchCS "data-".data
      ("data-".data ++ (name ++ ('=' :: '"' :: (val ++ ('"' :: b))))) =
      some (name ++ ('=' :: '"' :: (val ++ ('"' :: b)))) := by
    have h0 : matchCS "data-".data "data-".data = some [] := rfl
    have h1 := matchCS_extend (name ++ ('=' :: '"' :: (val ++ ('"' :: b)))) h0
    rw [List.nil_append] at h1
    exact h1
  rw [hm5]
  show (if ((name ++ ('=' :: '"' :: (val ++ ('"' :: b)))).takeWhile isDataNameChar).isEmpty = true
      then none
      else match (name ++ ('=' :: '"' :: (val ++ ('"' :: b)))).dropWhile isDataNameChar with
        | '=' :: '"' :: r3 =>
          match dropToChar '"' r3 with
          | none => none
          | some rest => some ([], rest)
        | _ => none) = some ([], b)
  have hblock := takeWhile_block name hnc '=' ('"' :: (val ++ ('"' :: b))) (by decide)
  rw [hblock.1, if_neg hne, hblock.2]
  show (match dropToChar '"' (val ++ ('"' :: b)) with
    | none => none
    | some rest => some ([], rest)) = some ([], b)
  rw [dropToChar_through val hval b]

/-- The data-attribute pass starting at the inserted attribute removes it
and passes over the data-free remainder. -/
theorem scanSub_ins_run (name val b : List Char)
    (hname : name ≠ []) (hnc : ∀ ch ∈ name, isDataNameChar ch = true)
    (hval : ∀ ch ∈ val, ch ≠ '"')
    (hb : containsL "data-".data b = false) :
    ∀ f, f ≥ ((' ' :: ("data-".data ++ (name ++ ('=' :: '"' :: (val ++ ['"']))))) ++ b).length →
      scanSub stepDataAttr f
        ((' ' :: ("data-".data ++ (name ++ ('=' :: '"' :: (val ++ ['"']))))) ++ b) = b := by
  intro f hf
  cases f with
  | zero =>
    exfalso
    simp only [List.cons_append, List.length_cons] at hf
    omega
  | succ f =>
    have hstep := stepDataAttr_ins name val b hname hnc hval
    show (match stepDataAttr
        ((' ' :: ("data-".data ++ (name ++ ('=' :: '"' :: (val ++ ['"']))))) ++ b) with
      | some (rep, rest) => rep ++ scanSub stepDataAttr f rest
      | none => ' ' :: scanSub stepDataAttr f
          (("data-".data ++ (name ++ ('=' :: '"' :: (val ++ ['"'])))) ++ b)) = b
    rw [hstep]
    exact scanSub_data_id b f hb

/-- The data-attribute pass removes exactly the inserted attribute when
the surrounding text is data-free and the insertion point follows a
non-whitespace character. -/
theorem scanSub_data_insert (name val b : List Char) (c0 : Char)
    (h0 : isPySpace c0 = false)
    (hname : name ≠ []) (hnc : ∀ ch ∈ name, isDataNameChar ch = true)
    (hval : ∀ ch ∈ val, ch ≠ '"')
    (hb : containsL "data-".data b = false) :
    ∀ (a0 : List Char) (f : Nat),
      containsL "data-".data ((a0 ++ [c0]) ++ b) = false →
      f ≥ ((a0 ++ [c0]) ++
        ((' ' :: ("data-".data ++ (name ++ ('=' :: '"' :: (val ++ ['"']))))) ++ b)).length →
      scanSub stepDataAttr f
        ((a0 ++ [c0]) ++
          ((' ' :: ("data-".data ++ (name ++ ('=' :: '"' :: (val ++ ['"']))))) ++ b)) =
        (a0 ++ [c0]) ++ b := by
  intro a0
  induction a0 with
  | nil =>
    intro f hab hf
    have hlen : ((([] : List Char) ++ [c0]) ++
        ((' ' :: ("data-".data ++ (name ++ ('=' :: '"' :: (val ++ ['"']))))) ++ b)).length =
        ((' ' :: ("data-".data ++ (name ++ ('=' :: '"' :: (val ++ ['"']))))) ++ b).length + 1 := by
      rw [List.nil_append, List.singleton_append, List.length_cons]
    cases f with
    | zero =>
      exfalso
      omega
    | succ f =>
      show (match stepDataAttr
          (c0 :: ((' ' :: ("data-".data ++ (name ++ ('=' :: '"' :: (val ++ ['"']))))) ++ b)) with
        | some (rep, rest) => rep ++ scanSub stepDataAttr f rest
        | none => c0 :: scanSub stepDataAttr f
            ((' ' :: ("data-".data ++ (name ++ ('=' :: '"' :: (val ++ ['"']))))) ++ b)) =
        c0 :: b
      rw [stepDataAttr_nonspace ((' ' :: ("data-".data ++
        (name ++ ('=' :: '"' :: (val ++ ['"']))))) ++ b) h0]
      rw [scanSub_ins_run name val b hname hnc hval hb f (by omega)]
  | cons ch a0 ih =>
    intro f hab hf
    have hDne : (((ch :: a0) ++ [c0]) : List Char).dropWhile isPySpace ≠ [] :=
      dropWhile_end_ne (ch :: a0) c0 h0
    have hstep : stepDataAttr (((ch :: a0) ++ [c0]) ++
        ((' ' :: ("data-".data ++ (name ++ ('=' :: '"' :: (val ++ ['"']))))) ++ b)) = none := by
      cases hm : stepDataAttr (((ch :: a0) ++ [c0]) ++
          ((' ' :: ("data-".data ++ (name ++ ('=' :: '"' :: (val ++ ['"']))))) ++ b)) with
      | none => rfl
      | some r =>
        exfalso
        have hm2 := stepDataAttr_match hm
        rw [dropWhile_append_ne ((ch :: a0) ++ [c0]) hDne
          ((' ' :: ("data-".data ++ (name ++ ('=' :: '"' :: (val ++ ['"']))))) ++ b)] at hm2
        cases hD : (((ch :: a0) ++ [c0]) : List Char).dropWhile isPySpace with
        | nil => exact absurd hD hDne
        | cons dc dcs =>
          rw [hD] at hm2
          obtain ⟨t, ht⟩ := Option.isSome_iff_exists.mp hm2
          rcases matchCS_split _ (dc :: dcs) _ t (by simp) ht with
            ⟨t2, h2⟩ | ⟨p1, q1, p2, hpeq, hp1, hm3⟩
          · have hext := matchCS_extend b h2
            have hfound : containsL "data-".data (((ch :: a0) ++ [c0]) ++ b) = true := by
              have hsplit : ((ch :: a0) ++ [c0]).takeWhile isPySpace ++ (dc :: dcs) =
                  (ch :: a0) ++ [c0] := by
                rw [← hD]
                simp
              rw [← hsplit, List.append_assoc]
              exact containsL_found _ _ _ (by rw [hext]; rfl)
            rw [hab] at hfound
            exact Bool.noConfusion hfound
          · have hd5 : ("data-".data : List Char) = 'd' :: "ata-".data := rfl
            rw [hd5] at hpeq
            have hhm : q1 ∈ "ata-".data := head_in_tail hpeq.symm hp1
            have hsp2 : ∀ x ∈ "ata-".data, x ≠ ' ' := by decide
            rw [List.cons_append] at hm3
            simp only [matchCS] at hm3
            split_ifs at hm3 with hcnd
            exact hsp2 q1 hhm hcnd.symm
    cases f with
    | zero =>
      exfalso
      simp only [List.cons_append, List.length_cons] at hf
      omega
    | succ f =>
      show scanSub stepDataAttr (f + 1)
        (ch :: ((a0 ++ [c0]) ++
          ((' ' :: ("data-".data ++ (name ++ ('=' :: '"' :: (val ++ ['"']))))) ++ b))) =
        ch :: ((a0 ++ [c0]) ++ b)
      have hstep2 : stepDataAttr
          (ch :: ((a0 ++ [c0]) ++
            ((' ' :: ("data-".data ++ (name ++ ('=' :: '"' :: (val ++ ['"']))))) ++ b))) = none := by
        rw [show ch :: ((a0 ++ [c0]) ++
            ((' ' :: ("data-".data ++ (name ++ ('=' :: '"' :: (val ++ ['"']))))) ++ b)) =
          ((ch :: a0) ++ [c0]) ++
            ((' ' :: ("data-".data ++ (name ++ ('=' :: '"' :: (val ++ ['"']))))) ++ b) from by
          simp]
        exact hstep
      have hab2 : containsL "data-".data ((a0 ++ [c0]) ++ b) = false := by
        have h1 : containsL "data-".data (ch :: ((a0 ++ [c0]) ++ b)) = false := by
          rw [show ch :: ((a0 ++ [c0]) ++ b) = ((ch :: a0) ++ [c0]) ++ b from by simp]
          exact hab
        exact containsL_tail h1
      have hf2 : f ≥ ((a0 ++ [c0]) ++
          ((' ' :: ("data-".data ++ (name ++ ('=' :: '"' :: (val ++ ['"']))))) ++ b)).length := by
        have hlen2 : (((ch :: a0) ++ [c0]) ++
            ((' ' :: ("data-".data ++ (name ++ ('=' :: '"' :: (val ++ ['"']))))) ++ b)).length =
            ((a0 ++ [c0]) ++
              ((' ' :: ("data-".data ++ (name ++ ('=' :: '"' :: (val ++ ['"']))))) ++ b)).length + 1 := by
          rw [List.cons_append, List.cons_append, List.length_cons]
        omega
      show (match stepDataAttr
          (ch :: ((a0 ++ [c0]) ++
            ((' ' :: ("data-".data ++ (name ++ ('=' :: '"' :: (val ++ ['"']))))) ++ b))) with
        | some (rep, rest) => rep ++ scanSub stepDataAttr f rest
        | none => ch :: scanSub stepDataAttr f
            ((a0 ++ [c0]) ++
              ((' ' :: ("data-".data ++ (name ++ ('=' :: '"' :: (val ++ ['"']))))) ++ b))) =
        ch :: ((a0 ++ [c0]) ++ b)
      rw [hstep2]
      rw [ih f hab2 hf2]

/-- Claim C4 (amended): compute_dom_hash is deterministic; inserting a
well-formed script block is invariant when the surrounding markup holds no
script opener and the block body no closing tag (the counterexample shows
an unclosed opener outside the block breaks it); and inserting a
double-quoted data attribute with a well-formed name, a value free of
quotes and angle brackets, directly after a non-whitespace character, is
invariant when the surrounding markup holds none of the removal patterns
and no other data- text (the counterexamples show a single-quoted value, a
whitespace insertion point and a rejoined opener each break it). -/
theorem C4_theorem (x y : String) (a c b a0 : List Char) (c0 : Char)
    (name val : List Char) :
    (x = y → compute_dom_hash x = compute_dom_hash y) ∧
    (containsCI ('<' :: "script".data) (a ++ b) = false →
      containsCI "</script>".data c = false →
      compute_dom_hash
        (String.mk (a ++ ("<script>".data ++ (c ++ ("</script>".data ++ b))))) =
        compute_dom_hash (String.mk (a ++ b))) ∧
    (isPySpace c0 = false → name ≠ [] →
      (∀ ch ∈ name, isDataNameChar ch = true) →
      (∀ ch ∈ val, ch ≠ '"' ∧ ch ≠ '<') →
      containsCI ('<' :: "script".data) ((a0 ++ [c0]) ++ b) = false →
      containsCI ('<' :: "iframe".data) ((a0 ++ [c0]) ++ b) = false →
      containsCI ('<' :: "noscript".data) ((a0 ++ [c0]) ++ b) = false →
      containsCI ('<' :: "style".data) ((a0 ++ [c0]) ++ b) = false →
      containsCI ('<' :: "!--".data) ((a0 ++ [c0]) ++ b) = false →
      containsL "data-".data ((a0 ++ [c0]) ++ b) = false →
      compute_dom_hash (String.mk ((a0 ++ [c0]) ++ (dataIns name val ++ b))) =
        compute_dom_hash (String.mk ((a0 ++ [c0]) ++ b))) := by
  refine ⟨fun h => by rw [h], ?_, ?_⟩
  · intro hab hc
    have hb : containsCI ('<' :: "script".data) b = false := containsCI_mono a hab
    have h1 : runSub (stepTagRemove "script".data)
        (a ++ ("<script>".data ++ (c ++ ("</script>".data ++ b)))) = a ++ b :=
      scanSub_script_insert c b hc hb a _ hab (le_refl _)
    have h2 : runSub (stepTagRemove "script".data) (a ++ b) = a ++ b :=
      scanSub_pat_id _ _ (fun s r h => stepTagRemove_match h) (a ++ b) _ hab
    show sha256Hex (utf8Encode (cleanDom
        (String.mk (a ++ ("<script>".data ++ (c ++ ("</script>".data ++ b))))).data)) =
      sha256Hex (utf8Encode (cleanDom (String.mk (a ++ b)).data))
    have hdata1 : (String.mk (a ++ ("<script>".data ++ (c ++ ("</script>".data ++ b))))).data =
        a ++ ("<script>".data ++ (c ++ ("</script>".data ++ b))) := rfl
    have hdata2 : (String.mk (a ++ b)).data = a ++ b := rfl
    rw [hdata1, hdata2]
    unfold cleanDom
    rw [h1, h2]
  · intro h0 hname hnc hvv hx1 hx2 hx3 hx4 hx5 hdat
    have hval1 : ∀ ch ∈ val, ch ≠ '"' := fun ch h => (hvv ch h).1
    have hmt : ∀ ch ∈ "data-".data ++ (name ++ ('=' :: '"' :: (val ++ ['"']))), ch ≠ '<' := by
      intro ch hch
      rcases List.mem_append.mp hch with h1 | h1
      · exact (show ∀ x ∈ "data-".data, x ≠ '<' by decide) ch h1
      · rcases List.mem_append.mp h1 with h2 | h2
        · intro he
          have := hnc ch h2
          rw [he] at this
          exact absurd this (by decide)
        · rcases List.mem_cons.mp h2 with h3 | h3
          · rw [h3]; decide
          · rcases List.mem_cons.mp h3 with h4 | h4
            · rw [h4]; decide
            · rcases List.mem_append.mp h4 with h5 | h5
              · exact (hvv ch h5).2
              · rcases List.mem_cons.mp h5 with h6 | h6
                · rw [h6]; decide
                · exact absurd h6 (List.not_mem_nil ch)
    have hbd : containsL "data-".data b = false := containsL_mono (a0 ++ [c0]) hdat
    have h1l : runSub (stepTagRemove "script".data) ((a0 ++ [c0]) ++
        ((' ' :: ("data-".data ++ (name ++ ('=' :: '"' :: (val ++ ['"']))))) ++ b)) =
        (a0 ++ [c0]) ++
          ((' ' :: ("data-".data ++ (name ++ ('=' :: '"' :: (val ++ ['"']))))) ++ b) :=
      scanSub_pat_id_ins _ _ (fun s r h => stepTagRemove_match h) (by decide)
        (a0 ++ [c0]) _ b hmt hx1 _
    have h2l : runSub (stepTagRemove "iframe".data) ((a0 ++ [c0]) ++
        ((' ' :: ("data-".data ++ (name ++ ('=' :: '"' :: (val ++ ['"']))))) ++ b)) =
        (a0 ++ [c0]) ++
          ((' ' :: ("data-".data ++ (name ++ ('=' :: '"' :: (val ++ ['"']))))) ++ b) :=
      scanSub_pat_id_ins _ _ (fun s r h => stepTagRemove_match h) (by decide)
        (a0 ++ [c0]) _ b hmt hx2 _
    have h3l : runSub (stepTagRemove "noscript".data) ((a0 ++ [c0]) ++
        ((' ' :: ("data-".data ++ (name ++ ('=' :: '"' :: (val ++ ['"']))))) ++ b)) =
        (a0 ++ [c0]) ++
          ((' ' :: ("data-".data ++ (name ++ ('=' :: '"' :: (val ++ ['"']))))) ++ b) :=
      scanSub_pat_id_ins _ _ (fun s r h => stepTagRemove_match h) (by decide)
        (a0 ++ [c0]) _ b hmt hx3 _
    have h4l : runSub (stepTagRemove "style".data) ((a0 ++ [c0]) ++
        ((' ' :: ("data-".data ++ (name ++ ('=' :: '"' :: (val ++ ['"']))))) ++ b)) =
        (a0 ++ [c0]) ++
          ((' ' :: ("data-".data ++ (name ++ ('=' :: '"' :: (val ++ ['"']))))) ++ b) :=
      scanSub_pat_id_ins _ _ (fun s r h => stepTagRemove_match h) (by decide)
        (a0 ++ [c0]) _ b hmt hx4 _
    have h5l : runSub stepComment ((a0 ++ [c0]) ++
        ((' ' :: ("data-".data ++ (name ++ ('=' :: '"' :: (val ++ ['"']))))) ++ b)) =
        (a0 ++ [c0]) ++
          ((' ' :: ("data-".data ++ (name ++ ('=' :: '"' :: (val ++ ['"']))))) ++ b) :=
      scanSub_pat_id_ins _ _ (fun s r h => stepComment_match h) (by decide)
        (a0 ++ [c0]) _ b hmt hx5 _
    have h6l : runSub stepDataAttr ((a0 ++ [c0]) ++
        ((' ' :: ("data-".data ++ (name ++ ('=' :: '"' :: (val ++ ['"']))))) ++ b)) =
        (a0 ++ [c0]) ++ b :=
      scanSub_data_insert name val b c0 h0 hname hnc hval1 hbd a0 _ hdat (le_refl _)
    have h1r : runSub (stepTagRemove "script".data) ((a0 ++ [c0]) ++ b) =
        (a0 ++ [c0]) ++ b :=
      scanSub_pat_id _ _ (fun s r h => stepTagRemove_match h) ((a0 ++ [c0]) ++ b) _ hx1
    have h2r : runSub (stepTagRemove "iframe".data) ((a0 ++ [c0]) ++ b) =
        (a0 ++ [c0]) ++ b :=
      scanSub_pat_id _ _ (fun s r h => stepTagRemove_match h) ((a0 ++ [c0]) ++ b) _ hx2
    have h3r : runSub (stepTagRemove "noscript".data) ((a0 ++ [c0]) ++ b) =
        (a0 ++ [c0]) ++ b :=
      scanSub_pat_id _ _ (fun s r h => stepTagRemove_match h) ((a0 ++ [c0]) ++ b) _ hx3
    have h4r : runSub (stepTagRemove "style".data) ((a0 ++ [c0]) ++ b) =
        (a0 ++ [c0]) ++ b :=
      scanSub_pat_id _ _ (fun s r h => stepTagRemove_match h) ((a0 ++ [c0]) ++ b) _ hx4
    have h5r : runSub stepComment ((a0 ++ [c0]) ++ b) = (a0 ++ [c0]) ++ b :=
      scanSub_pat_id _ _ (fun s r h => stepComment_match h) ((a0 ++ [c0]) ++ b) _ hx5
    have h6r : runSub stepDataAttr ((a0 ++ [c0]) ++ b) = (a0 ++ [c0]) ++ b :=
      scanSub_data_id ((a0 ++ [c0]) ++ b) _ hdat
    show sha256Hex (utf8Encode (cleanDom
        (String.mk ((a0 ++ [c0]) ++ (dataIns name val ++ b))).data)) =
      sha256Hex (utf8Encode (cleanDom (String.mk ((a0 ++ [c0]) ++ b)).data))
    have hdata1 : (String.mk ((a0 ++ [c0]) ++ (dataIns name val ++ b))).data =
        (a0 ++ [c0]) ++
          ((' ' :: ("data-".data ++ (name ++ ('=' :: '"' :: (val ++ ['"']))))) ++ b) := rfl
    have hdata2 : (String.mk ((a0 ++ [c0]) ++ b)).data = (a0 ++ [c0]) ++ b := rfl
    rw [hdata1, hdata2]
    unfold cleanDom
    rw [h1l, h2l, h3l, h4l, h5l, h6l, h1r, h2r, h3r, h4r, h5r, h6r]

/-- Witness for C4_theorem at concrete inputs: an inline script inserted
into opener-free surroundings and a double-quoted data attribute inserted
after a tag name both leave the fingerprint unchanged. -/
theorem C4_theorem_witness :
    (containsCI ('<' :: "script".data) ("Hello ".data ++ " world".data) = false ∧
      containsCI "</script>".data "var t = 1;".data = false ∧
      compute_dom_hash (String.mk ("Hello ".data ++ ("<script>".data ++
          ("var t = 1;".data ++ ("</script>".data ++ " world".data))))) =
        compute_dom_hash (String.mk ("Hello ".data ++ " world".data))) ∧
    (containsL "data-".data (("<di".data ++ ['v']) ++ ">ok</div>".data) = false ∧
      compute_dom_hash (String.mk (("<di".data ++ ['v']) ++
          (dataIns "x".data "1".data ++ ">ok</div>".data))) =
        compute_dom_hash (String.mk (("<di".data ++ ['v']) ++ ">ok</div>".data))) := by
  constructor
  · exact ⟨by decide, by decide,
      ( C4_theorem "" "" "Hello ".data "var t = 1;".data " world".data
        [] 'a' [] []).2.1 (by decide) (by decide)⟩
  · exact ⟨by decide,
      ( C4_theorem "" "" [] [] ">ok</div>".data "<di".data 'v'
        "x".data "1".data).2.2 (by decide) (by decide) (by decide) (by decide)
        (by decide) (by decide) (by decide) (by decide) (by decide) (by decide)⟩

end Ay11
